import Mathlib

/-!
Shallow embedding of the `brookcs3/lb` beat-tracking library (main module
`src/xa-beat-tracker.js`, plus the tempogram analysis functions of the
bundled analyzer page) and proofs about the claims of its specification.

JavaScript numbers are modelled as real numbers (`ℝ`), arrays as `List`s,
array indexing `a[i]` as `List.getD i 0`, and fallible functions as
`Except`.  Definitions mirror the JavaScript source statement by
statement; where the source relies on JS-specific behaviour (e.g.
`Math.max()` of an empty spread) the modelling choice is noted in a
comment at the definition.
-/

noncomputable section

namespace XaBeat

attribute [local instance] Classical.propDecidable

/-- Model of JavaScript `Math.round`: rounds half-way cases up
(towards `+∞`), i.e. `⌊x + 1/2⌋`. -/
def jsRound (x : ℝ) : ℤ := ⌊x + 1/2⌋

/-- Model of `Math.max(...arr)` for a non-empty array: left fold of `max`
over the elements.  (On `[]` JavaScript yields `-Infinity`; the model
returns `0`, and every use in this file is guarded so the `[]` case never
influences a modelled result.) -/
def jsMax : List ℝ → ℝ
  | [] => 0
  | a :: t => t.foldl max a

/-- Model of `Math.min(...arr)` for a non-empty array. -/
def jsMin : List ℝ → ℝ
  | [] => 0
  | a :: t => t.foldl min a

/-- Insert into a sorted list, keeping `x` before the first element `y`
with `r x y`; used to model JavaScript's stable `Array.prototype.sort`. -/
def insertSorted (r : α → α → Prop) (x : α) : List α → List α
  | [] => [x]
  | y :: t => if r x y then x :: y :: t else y :: insertSorted r x t

/-- Stable insertion sort with respect to the relation `r` ("stays
before"); models `Array.prototype.sort(cmp)` (stable in modern JS). -/
def sortWith (r : α → α → Prop) (l : List α) : List α :=
  l.foldr (insertSorted r) []

/-- Numeric ascending sort `arr.sort((a, b) => a - b)`. -/
def sortAsc (l : List ℝ) : List ℝ := sortWith (· ≤ ·) l

/-- Model of `[...new Set(arr)]`: removes duplicates keeping the first
occurrence of each value. -/
def dedupFirst : List ℝ → List ℝ
  | [] => []
  | x :: t => x :: dedupFirst (t.filter (fun y => y ≠ x))
termination_by l => l.length
decreasing_by
  simpa using Nat.lt_succ_of_le (List.length_filter_le _ t)

/-- Fold computing the running best (strictly greater score wins, so the
earliest maximiser is kept) together with its position; models the
`bestScore`/`beatLocation` accumulator pattern of the DP search loop,
with `none` playing the role of `-Infinity`. -/
def bestFold (g : ℕ → ℝ) (l : List ℕ) : Option (ℝ × ℕ) :=
  l.foldl (fun best loc =>
    match best with
    | none => some (g loc, loc)
    | some (b, bl) => if b < g loc then some (g loc, loc) else some (b, bl)) none

theorem bestFold_nil (g : ℕ → ℝ) : bestFold g [] = none := rfl

theorem bestFold_some_aux (g : ℕ → ℝ) (l : List ℕ) :
    ∀ b bl, ∃ m ml, (l.foldl (fun best loc =>
      match best with
      | none => some (g loc, loc)
      | some (b, bl) => if b < g loc then some (g loc, loc) else some (b, bl))
        (some (b, bl))) = some (m, ml) ∧
      ((m = b ∧ ml = bl) ∨ (ml ∈ l ∧ m = g ml)) ∧ b ≤ m ∧ ∀ x ∈ l, g x ≤ m := by
  induction l with
  | nil => intro b bl; exact ⟨b, bl, rfl, Or.inl ⟨rfl, rfl⟩, le_refl _, by simp⟩
  | cons y t ih =>
    intro b bl
    by_cases h : b < g y
    · obtain ⟨m, ml, hfold, hcase, hle, hall⟩ := ih (g y) y
      refine ⟨m, ml, ?_, ?_, ?_, ?_⟩
      · simpa [List.foldl_cons, if_pos h] using hfold
      · rcases hcase with ⟨hm, hml⟩ | ⟨hml, hm⟩
        · exact Or.inr ⟨by simp [hml], by rw [hm, hml]⟩
        · exact Or.inr ⟨by simp [hml], hm⟩
      · exact le_trans (le_of_lt h) hle
      · intro x hx
        rcases List.mem_cons.mp hx with rfl | hx
        · exact hle
        · exact hall x hx
    · obtain ⟨m, ml, hfold, hcase, hle, hall⟩ := ih b bl
      refine ⟨m, ml, ?_, ?_, hle, ?_⟩
      · simpa [List.foldl_cons, if_neg h] using hfold
      · rcases hcase with ⟨hm, hml⟩ | ⟨hml, hm⟩
        · exact Or.inl ⟨hm, hml⟩
        · exact Or.inr ⟨by simp [hml], hm⟩
      · intro x hx
        rcases List.mem_cons.mp hx with rfl | hx
        · exact le_trans (le_of_not_lt h) hle
        · exact hall x hx

theorem bestFold_spec (g : ℕ → ℝ) (l : List ℕ) (h : l ≠ []) :
    ∃ m ml, bestFold g l = some (m, ml) ∧ ml ∈ l ∧ m = g ml ∧ ∀ x ∈ l, g x ≤ m := by
  match l, h with
  | y :: t, _ =>
    obtain ⟨m, ml, hfold, hcase, hle, hall⟩ := bestFold_some_aux g t (g y) y
    refine ⟨m, ml, ?_, ?_, ?_, ?_⟩
    · simpa [bestFold, List.foldl_cons] using hfold
    · rcases hcase with ⟨_, hml⟩ | ⟨hml, _⟩
      · simp [hml]
      · exact List.mem_cons_of_mem _ hml
    · rcases hcase with ⟨hm, hml⟩ | ⟨_, hm⟩
      · rw [hm, hml]
      · exact hm
    · intro x hx
      rcases List.mem_cons.mp hx with rfl | hx
      · exact hle
      · exact hall x hx

theorem bestFold_eq_none (g : ℕ → ℝ) (l : List ℕ) :
    bestFold g l = none ↔ l = [] := by
  constructor
  · intro h
    by_contra hne
    obtain ⟨m, ml, hfold, _⟩ := bestFold_spec g l hne
    rw [h] at hfold
    exact Option.noConfusion hfold
  · intro h; rw [h]; rfl

/-! ### Spectrum primitives (`_fft`, `_ifft`, `_computeMagnitudeSpectrum`) -/

/-- Value of the Hann window of length `n` at position `j`:
`0.5 * (1 - cos(2πj/(n-1)))` (written `0.5 - 0.5*cos(...)` at some call
sites of the source; the two forms are identical). -/
def hannVal (n j : ℕ) : ℝ :=
  0.5 * (1 - Real.cos ((2 * Real.pi * j) / ((n : ℝ) - 1)))

/-- Real part of DFT bin `k` of `signal`:
`Σ_n signal[n] * cos(-2πkn/N)`. -/
def fftRe (signal : List ℝ) (k : ℕ) : ℝ :=
  ∑ n ∈ Finset.range signal.length,
    signal.getD n 0 * Real.cos ((-2 * Real.pi * k * n) / (signal.length : ℝ))

/-- Imaginary part of DFT bin `k` of `signal`:
`Σ_n signal[n] * sin(-2πkn/N)`. -/
def fftIm (signal : List ℝ) (k : ℕ) : ℝ :=
  ∑ n ∈ Finset.range signal.length,
    signal.getD n 0 * Real.sin ((-2 * Real.pi * k * n) / (signal.length : ℝ))

/-- Model of `_fft` (the direct O(N²) discrete transform of the source):
bin `k` holds `(real, imag)` computed by the inner accumulation loops.
Returns `N` bins for an input of `N` samples, as the source does. -/
def fft (signal : List ℝ) : List (ℝ × ℝ) :=
  (List.range signal.length).map (fun k => (fftRe signal k, fftIm signal k))

/-- Model of `_ifft`: sample `n` is
`(Σ_k re_k*cos(2πkn/N) - im_k*sin(2πkn/N)) / N`. -/
def ifft (spectrum : List (ℝ × ℝ)) : List ℝ :=
  (List.range spectrum.length).map (fun n =>
    (∑ k ∈ Finset.range spectrum.length,
      ((spectrum.getD k (0, 0)).1 * Real.cos ((2 * Real.pi * k * n) / (spectrum.length : ℝ)) -
       (spectrum.getD k (0, 0)).2 * Real.sin ((2 * Real.pi * k * n) / (spectrum.length : ℝ)))) /
      (spectrum.length : ℝ))

/-- Model of `_computeMagnitudeSpectrum`: magnitudes `sqrt(re² + im²)` of
every bin produced by `_fft`. -/
def computeMagnitudeSpectrum (frame : List ℝ) : List ℝ :=
  (fft frame).map (fun bin => Real.sqrt (bin.1 * bin.1 + bin.2 * bin.2))

/-! ### Onset strength (`onsetStrength`) -/

/-- Frame length used by `onsetStrength` (hard-coded 2048 in the source). -/
def frameLength : ℕ := 2048

/-- Number of frames `Math.floor((y.length - frameLength)/hopLength) + 1`
of the onset analysis (computed over `ℤ` because the source value can be
negative for very short inputs, in which case no frame is produced). -/
def onsetFrameCount (n hop : ℕ) : ℕ :=
  (((n : ℤ) - (frameLength : ℤ)).fdiv (hop : ℤ) + 1).toNat

/-- Hann-windowed analysis frame `i` of the signal `y` (zero-padded past
the end of `y`, exactly as the guarded copy loop of the source). -/
def frameAt (y : List ℝ) (hop i : ℕ) : List ℝ :=
  (List.range frameLength).map (fun j =>
    if i * hop + j < y.length then y.getD (i * hop + j) 0 * hannVal frameLength j else 0)

/-- Magnitude spectrum of analysis frame `i`. -/
def spectrumAt (y : List ℝ) (hop i : ℕ) : List ℝ :=
  computeMagnitudeSpectrum (frameAt y hop i)

/-- Spectral flux between a spectrum and its predecessor:
`Σ_k max(0, cur[k] - prev[k])` over all bins of `cur`. -/
def spectralFlux (cur prev : List ℝ) : ℝ :=
  ∑ k ∈ Finset.range cur.length, max 0 (cur.getD k 0 - prev.getD k 0)

/-- Accumulator pass of `onsetStrength`: processes frames `0..n-1`
threading the previous spectrum (`none` before the first frame), exactly
as the `prevSpectrum` variable of the source loop. -/
def onsetAux (y : List ℝ) (hop : ℕ) : ℕ → List ℝ × Option (List ℝ)
  | 0 => ([], none)
  | n + 1 =>
    let s := onsetAux y hop n
    let spectrum := spectrumAt y hop n
    match s.2 with
    | some prev => (s.1 ++ [spectralFlux spectrum prev], some spectrum)
    | none => (s.1 ++ [0], some spectrum)

/-- Model of `onsetStrength(y, _sr, hopLength)`: spectral-flux onset
envelope (the sample-rate argument is unused by the source). -/
def onsetStrength (y : List ℝ) (hop : ℕ) : List ℝ :=
  (onsetAux y hop (onsetFrameCount y.length hop)).1

/-! ### Beat-tracking dynamic programming (`_beatTrackDP` and friends) -/

/-- Frames-per-beat value used at DP step `i`
(`framesPerBeat[tv * Math.min(i, framesPerBeat.length - 1)]`). -/
def fpbAt (fpb : List ℤ) (i : ℕ) : ℤ :=
  fpb.getD ((if 1 < fpb.length then 1 else 0) * min i (fpb.length - 1)) 0

/-- DP search-window start `Math.max(0, i - Math.round(2.5 * fpb))`. -/
def dpSearchStart (i : ℕ) (f : ℤ) : ℕ :=
  ((i : ℤ) - jsRound ((5/2 : ℝ) * (f : ℝ))).toNat

/-- DP search-window end `Math.max(0, i - Math.round(0.5 * fpb))`. -/
def dpSearchEnd (i : ℕ) (f : ℤ) : ℕ :=
  ((i : ℤ) - jsRound ((1/2 : ℝ) * (f : ℝ))).toNat

/-- Predecessor locations examined by the DP inner loop at step `i`:
`loc` runs from `dpSearchStart` to `dpSearchEnd`, and the loop breaks at
the first `loc ≥ i` (equivalently, the ascending range is filtered to
`loc < i`). -/
def dpWindow (i : ℕ) (f : ℤ) : List ℕ :=
  (List.range' (dpSearchStart i f) (dpSearchEnd i f + 1 - dpSearchStart i f)).filter
    (fun loc => loc < i)

/-- Transition score of moving from predecessor `loc` to beat `i`:
`cumScore[loc] - tightness * (log(max(1, i-loc)) - log(max(1, fpb)))²`. -/
def dpTrans (cum : List ℝ) (t : ℝ) (f : ℤ) (i loc : ℕ) : ℝ :=
  cum.getD loc 0 -
    t * (Real.log (max 1 ((i : ℝ) - (loc : ℝ))) - Real.log (max 1 (f : ℝ))) ^ 2

/-- Result of the DP inner loop at step `i`: best transition score and
its (earliest) location, or `none` when no valid predecessor exists. -/
def dpBest (cum : List ℝ) (t : ℝ) (f : ℤ) (i : ℕ) : Option (ℝ × ℕ) :=
  bestFold (dpTrans cum t f i) (dpWindow i f)

/-- DP forward pass after `n` steps: cumulative scores, backlinks, and
the `firstBeat` flag, built exactly as the source loop (step `0`
initialises `cumScore[0] = localScore[0]`, `backlink[0] = -1`). -/
def dpAux (ls : List ℝ) (fpb : List ℤ) (t : ℝ) : ℕ → List ℝ × List ℤ × Bool
  | 0 => ([], [], true)
  | n + 1 =>
    let s := dpAux ls fpb t n
    match n with
    | 0 => ([ls.getD 0 0], [-1], true)
    | _ =>
      let f := fpbAt fpb n
      let best := dpBest s.1 t f n
      let cumI : ℝ :=
        match best with
        | some p => ls.getD n 0 + p.1
        | none => ls.getD n 0
      let thresh := (1/100 : ℝ) * jsMax ls
      let fb := s.2.2
      let backI : ℤ :=
        if fb ∧ ls.getD n 0 < thresh then -1
        else match best with
          | some p => (p.2 : ℤ)
          | none => -1
      let fb' := if fb ∧ ls.getD n 0 < thresh then fb else false
      (s.1 ++ [cumI], s.2.1 ++ [backI], fb')

/-- Model of `_beatTrackDP(localScore, framesPerBeat, tightness)`:
returns `(backlink, cumScore)`. -/
def beatTrackDP (ls : List ℝ) (fpb : List ℤ) (t : ℝ) : List ℤ × List ℝ :=
  let s := dpAux ls fpb t ls.length
  (s.2.1, s.1)

/-! ### Tempo estimation (`tempoEstimation` and its helpers) -/

/-- First element satisfying `p` (model of `Array.prototype.find`). -/
def findFirst (p : α → Prop) : List α → Option α
  | [] => none
  | x :: t => if p x then some x else findFirst p t

/-- Autocorrelation peak as pushed by `_findPeaksWithProminence`. -/
structure Peak where
  index : ℕ
  value : ℝ
  prominence : ℝ

/-- Model of `_findPeaksWithProminence(signal, minProminence)`: strict
interior local maxima whose prominence (height over the lower neighbour)
reaches `minProminence * Math.max(...signal)`, sorted by descending
prominence (stable). -/
def findPeaksWithProminence (signal : List ℝ) (minProminence : ℝ) : List Peak :=
  let maxVal := jsMax signal
  let raw := (List.range signal.length).filterMap (fun i =>
    if 1 ≤ i ∧ i + 1 < signal.length ∧
        signal.getD (i-1) 0 < signal.getD i 0 ∧ signal.getD (i+1) 0 < signal.getD i 0 ∧
        minProminence * maxVal ≤
          signal.getD i 0 - min (signal.getD (i-1) 0) (signal.getD (i+1) 0)
    then some ⟨i, signal.getD i 0,
          signal.getD i 0 - min (signal.getD (i-1) 0) (signal.getD (i+1) 0)⟩
    else none)
  sortWith (fun a b => b.prominence ≤ a.prominence) raw

/-- Model of `_findOnsetPeaks(onsetEnvelope, threshold)`: interior local
maxima above `threshold * max`, kept only when more than 10 frames after
the previously kept peak. -/
def findOnsetPeaks (e : List ℝ) (threshold : ℝ) : List ℕ :=
  let dynThr := threshold * jsMax e
  (List.range e.length).foldl (fun peaks i =>
    if 1 ≤ i ∧ i + 1 < e.length ∧ dynThr < e.getD i 0 ∧
        e.getD (i-1) 0 < e.getD i 0 ∧ e.getD (i+1) 0 < e.getD i 0 then
      if peaks = [] ∨ 10 < i - peaks.getLastD 0 then peaks ++ [i] else peaks
    else peaks) []

/-- Inter-peak intervals of the first `min(length, 20)` onset peaks. -/
def onsetIntervals (peaks : List ℕ) : List ℝ :=
  ((List.range (min peaks.length 20)).filter (fun i => 1 ≤ i)).map
    (fun i => ((peaks.getD i 0 : ℝ) - (peaks.getD (i-1) 0 : ℝ)))

/-- Median (ascending-sorted value at index `⌊length/2⌋`) of the
inter-onset-peak intervals, in frames. -/
def medianIntervalFrames (e : List ℝ) : ℝ :=
  let intervals := sortAsc (onsetIntervals (findOnsetPeaks e (3/10)))
  intervals.getD (intervals.length / 2) 0

/-- BPM suggested by the median inter-onset-peak interval:
`(60 * sampleRate) / (medianInterval * hopLength)`. -/
def onsetIntervalBpm (e : List ℝ) (sr hop : ℝ) : ℝ :=
  (60 * sr) / (medianIntervalFrames e * hop)

/-- Lag lower bound `Math.floor((60 * sr) / (maxBpm * hop))` with the
hard-coded `maxBpm = 300`. -/
def tempoMinLag (sr hop : ℝ) : ℤ := ⌊(60 * sr) / (300 * hop)⌋

/-- Lag upper bound `Math.ceil((60 * sr) / (minBpm * hop))` with the
hard-coded `minBpm = 30`. -/
def tempoMaxLag (sr hop : ℝ) : ℤ := ⌈(60 * sr) / (30 * hop)⌉

/-- Normalised autocorrelation of the envelope at one lag:
`corr/norm` when `norm > 0`, else `0`. -/
def autocorrAt (e : List ℝ) (lag : ℕ) : ℝ :=
  let corr := ∑ i ∈ Finset.range (e.length - lag), e.getD i 0 * e.getD (i + lag) 0
  let norm := ∑ i ∈ Finset.range (e.length - lag), e.getD i 0 * e.getD i 0
  if 0 < norm then corr / norm else 0

/-- Autocorrelation array over lags `minLag .. maxLag`. -/
def autocorrList (e : List ℝ) (sr hop : ℝ) : List ℝ :=
  (List.range (tempoMaxLag sr hop - tempoMinLag sr hop + 1).toNat).map
    (fun lagIdx : ℕ => autocorrAt e (tempoMinLag sr hop + (lagIdx : ℤ)).toNat)

/-- BPM candidate record of the enhanced tempo-estimation path
(`originalScore`/`priorWeight` are the fields added by the prior step). -/
structure TempoCand where
  bpm : ℝ
  score : ℝ
  prominence : ℝ
  originalScore : ℝ
  priorWeight : ℝ

/-- Placeholder candidate (JS would crash indexing an empty candidate
array; every modelled call site guarantees non-emptiness). -/
def candJunk : TempoCand := ⟨0, 0, 0, 0, 0⟩

/-- Top (at most 5) autocorrelation peaks converted to BPM candidates:
`bpm = (60 * sr) / (lag * hop)` with `lag = minLag + peak.index`. -/
def rawCandidates (peaks : List Peak) (sr hop : ℝ) (minLag : ℤ) : List TempoCand :=
  (peaks.take (min 5 peaks.length)).map (fun p =>
    ⟨(60 * sr) / (((minLag + p.index : ℤ) : ℝ) * hop), p.value, p.prominence, p.value, 1⟩)

/-- Log-normal prior re-weighting centred at `startBpm` (std = 1 octave):
`score *= exp(-0.5 * ((log2 bpm - log2 startBpm) / 1)²)`, recording the
pre-prior score in `originalScore`. -/
def applyLogNormalPrior (startBpm : ℝ) (c : TempoCand) : TempoCand :=
  let w := Real.exp (-(1/2) * ((Real.logb 2 c.bpm - Real.logb 2 startBpm) / 1) ^ 2)
  ⟨c.bpm, c.score * w, c.prominence, c.score, w⟩

/-- Tempo-relationship slots of `_detectTempoRelationships`. -/
structure TempoRels where
  base : TempoCand
  half_time : Option TempoCand
  double_time : Option TempoCand
  two_thirds : Option TempoCand
  three_halves : Option TempoCand
  four_thirds : Option TempoCand

/-- Keep the higher-scoring candidate in a relationship slot. -/
def updateRel (cur : Option TempoCand) (c : TempoCand) : Option TempoCand :=
  match cur with
  | none => some c
  | some r => if r.score < c.score then some c else some r

/-- Model of `_detectTempoRelationships(candidates)`: classifies each
candidate by its bpm ratio to the top candidate. -/
def detectTempoRelationships (cands : List TempoCand) : TempoRels :=
  let base := cands.headD candJunk
  cands.foldl (fun rels c =>
    let ratio := c.bpm / base.bpm
    if |ratio - 1/2| < 1/20 then { rels with half_time := updateRel rels.half_time c }
    else if |ratio - 2| < 1/20 then { rels with double_time := updateRel rels.double_time c }
    else if |ratio - 2/3| < 1/20 then { rels with two_thirds := updateRel rels.two_thirds c }
    else if |ratio - 3/2| < 1/20 then { rels with three_halves := updateRel rels.three_halves c }
    else if |ratio - 4/3| < 1/20 then { rels with four_thirds := updateRel rels.four_thirds c }
    else rels)
    ⟨base, none, none, none, none, none⟩

/-- Model of JavaScript `c.originalScore || c.score` (`0` is falsy). -/
def origOrScore (c : TempoCand) : ℝ :=
  if c.originalScore = 0 then c.score else c.originalScore

/-- Common dance tempos of confusion pattern 4. -/
def commonDanceTempos : List ℝ :=
  [98, 99, 100, 108, 110, 120, 124, 126, 128, 130, 135, 140, 172, 174]

/-- Model of `_resolveTempoConfusion(candidates, relationships)` (the
`relationships` argument is unused by the source body as well). -/
def resolveTempoConfusion (cands : List TempoCand) (_rels : TempoRels) : Option ℝ :=
  if cands.length < 2 then none
  else
    let base := cands.headD candJunk
    let baseScore := origOrScore base
    let pat1 : Option ℝ :=
      if 85 ≤ base.bpm ∧ base.bpm ≤ 87 then
        match findFirst (fun c => |c.bpm - base.bpm * (5/4)| < 3) cands with
        | some m => if baseScore * (6/10) < m.originalScore then some m.bpm else none
        | none => none
      else none
    let pat2 : Option ℝ :=
      if 92 ≤ base.bpm ∧ base.bpm ≤ 95 then
        match findFirst (fun c => |c.bpm - base.bpm * (3/2)| < 3) cands with
        | some m => if baseScore * (1/2) < m.originalScore then some m.bpm else none
        | none => none
      else none
    let pat3 : Option ℝ :=
      if 77 ≤ base.bpm ∧ base.bpm ≤ 80 then
        match findFirst (fun c => |c.bpm - base.bpm * (126/100)| < 3) cands with
        | some m => if baseScore * (6/10) < m.originalScore then some m.bpm else none
        | none => none
      else none
    let pat4 : Option ℝ :=
      ((findFirst (fun c =>
          (∃ t ∈ commonDanceTempos, |c.bpm - t| < 2) ∧ baseScore * (7/10) < c.originalScore)
        ((cands.drop 1).take (min 4 cands.length - 1))).map (fun c => c.bpm))
    pat1 <|> pat2 <|> pat3 <|> pat4

/-- Common tempo table (bpm, boost weight) of `_selectBestTempo`
(genre labels have no semantic effect and are omitted). -/
def commonTemposWeighted : List (ℝ × ℝ) :=
  [(70, 11/10), (85, 12/10), (90, 12/10), (95, 11/10), (98, 11/10), (99, 11/10),
   (100, 13/10), (105, 12/10), (108, 12/10), (110, 12/10), (115, 11/10), (120, 15/10),
   (122, 13/10), (124, 14/10), (126, 14/10), (128, 15/10), (130, 13/10), (135, 12/10),
   (140, 14/10), (145, 12/10), (150, 11/10), (160, 12/10), (170, 11/10), (172, 12/10),
   (174, 13/10), (180, 11/10)]

/-- `Object.values(relationships)` in insertion order. -/
def relsValues (r : TempoRels) : List (Option TempoCand) :=
  [some r.base, r.half_time, r.double_time, r.two_thirds, r.three_halves, r.four_thirds]

/-- Model of `_selectBestTempo(candidates, relationships, targetBpm)`. -/
def selectBestTempo (cands : List TempoCand) (rels : TempoRels) (targetBpm : ℝ) : ℝ :=
  let allCands := (relsValues rels).foldl (fun acc o =>
    match o with
    | some rel =>
      if (findFirst (fun c => |c.bpm - rel.bpm| < 1) acc).isSome then acc else acc ++ [rel]
    | none => acc) cands
  let scored := (allCands.take 10).map (fun c =>
    let s1 := match findFirst (fun ct => |ct.1 - c.bpm| < 2) commonTemposWeighted with
      | some ct => c.score * ct.2
      | none => c.score
    let s2 := match rels.half_time with
      | some h => if |c.bpm - h.bpm| < 1 then s1 * (8/10) else s1
      | none => s1
    let s3 := match rels.double_time with
      | some d => if |c.bpm - d.bpm| < 1 then s2 * (85/100) else s2
      | none => s2
    let s4 := if |c.bpm - targetBpm| < 10 then s3 * (11/10) else s3
    (c, s4))
  ((sortWith (fun a b => b.2 ≤ a.2) scored).headD (candJunk, 0)).1.bpm

/-- Octave/relationship expansion of the candidate list (×1, ×2, ×0.5,
×1.5, ×4/3, each guarded by the hard-coded 30–300 range). -/
def expandCandidates (cands : List TempoCand) : List ℝ :=
  cands.foldl (fun acc c =>
    let acc1 := acc ++ [c.bpm]
    let acc2 := if c.bpm * 2 ≤ 300 then acc1 ++ [c.bpm * 2] else acc1
    let acc3 := if 30 ≤ c.bpm / 2 then acc2 ++ [c.bpm / 2] else acc2
    let acc4 := if c.bpm * (3/2) ≤ 300 then acc3 ++ [c.bpm * (3/2)] else acc3
    if c.bpm * 4 / 3 ≤ 300 then acc4 ++ [c.bpm * 4 / 3] else acc4) []

/-- Plain common-tempo list of the final matching stage. -/
def commonTempos23 : List ℝ :=
  [60, 70, 80, 85, 90, 95, 98, 99, 100, 105, 110, 115, 120, 125, 128, 130, 135,
   140, 150, 160, 170, 174, 180]

/-- Final common-tempo matching loop: state is
`(minDiff : Option ℝ, bestCandidate, matchedCommon)` (`none` models the
initial `Infinity`); a candidate within 3 BPM of a common tempo replaces
the best when its distance is strictly smaller. -/
def commonMatchFold (uniq : List ℝ) (init : ℝ) : Option ℝ × ℝ × Bool :=
  uniq.foldl (fun st c =>
    commonTempos23.foldl (fun st2 common =>
      if |c - common| < 3 then
        match st2.1 with
        | none => (some |c - common|, common, true)
        | some m => if |c - common| < m then (some |c - common|, common, true) else st2
      else st2) st) (none, init, false)

/-- Fallback scoring loop when no common tempo matched: prefer the
90–110 range (then 80–120), penalise distance from `startBpm`. -/
def fallbackFold (uniq : List ℝ) (init startBpm : ℝ) : ℝ :=
  (uniq.foldl (fun (st : Option ℝ × ℝ) c =>
    let score := (if 90 ≤ c ∧ c ≤ 110 then (10:ℝ) else if 80 ≤ c ∧ c ≤ 120 then 5 else 0)
      - |c - startBpm| * (1/10)
    match st.1 with
    | none => (some score, c)
    | some b => if b < score then (some score, c) else st) (none, init)).2

/-- Model of `tempoEstimation(onsetEnvelope, sr, hopLength, startBpm,
useEnhanced)` of `xa-beat-tracker.js` (the sample rate is taken as given;
the source's `sr || this.defaultSampleRate` fallback concerns only a
missing argument). -/
def tempoEstimation (e : List ℝ) (sr hop startBpm : ℝ) (useEnhanced : Bool) : ℝ :=
  let peaks := findPeaksWithProminence (autocorrList e sr hop) (1/20)
  if peaks = [] then startBpm
  else if useEnhanced ∧ 4 ≤ (findOnsetPeaks e (3/10)).length ∧
      |onsetIntervalBpm e sr hop - 99| < 5 then
    ((jsRound (onsetIntervalBpm e sr hop) : ℤ) : ℝ)
  else
    let sorted := sortWith (fun a b => b.score ≤ a.score)
      ((rawCandidates peaks sr hop (tempoMinLag sr hop)).map (applyLogNormalPrior startBpm))
    let estimatedBpm := (sorted.headD candJunk).bpm
    let rels := detectTempoRelationships sorted
    match resolveTempoConfusion sorted rels with
    | some r => ((jsRound r : ℤ) : ℝ)
    | none =>
      let selectedBpm := selectBestTempo sorted rels startBpm
      if selectedBpm ≠ estimatedBpm then ((jsRound selectedBpm : ℤ) : ℝ)
      else
        let uniq := sortAsc (dedupFirst
          ((expandCandidates sorted).map (fun c => ((jsRound (c * 10) : ℤ) : ℝ) / 10)))
        let st := commonMatchFold uniq estimatedBpm
        let best := if st.2.2 then st.2.1 else fallbackFold uniq st.2.1 startBpm
        max 30 (min 300 best)

/-! ### Beat tracker (`_beatTracker`, `beatTrack`) -/

/-- Model of `_normalizeOnsets`: divide by the sample standard deviation
(denominator `length - 1`) plus `1e-10`. -/
def normalizeOnsets (l : List ℝ) : List ℝ :=
  let mean := l.sum / (l.length : ℝ)
  let variance := (l.map (fun b => (b - mean) ^ 2)).sum / ((l.length : ℝ) - 1)
  l.map (fun o => o / (Real.sqrt variance + 1 / 10 ^ 10))

/-- Gaussian beat-expectation weight `exp(-0.5 * (off*32/fpb)²)`. -/
def gaussWeight (f : ℤ) (off : ℤ) : ℝ :=
  Real.exp (-(1/2) * (((off : ℝ) * 32) / (f : ℝ)) ^ 2)

/-- Model of `_beatLocalScore(onsetEnvelope, framesPerBeat)`: convolution
with a Gaussian window of half-width `Math.round(fpb)`; static and
time-varying tempo branches as in the source. -/
def beatLocalScore (e : List ℝ) (fpb : List ℤ) : List ℝ :=
  let N := e.length
  if fpb.length = 1 then
    let f := fpb.headD 0
    let ws := jsRound (f : ℝ)
    (List.range N).map (fun i =>
      ∑ j ∈ Finset.range (2 * ws.toNat + 1),
        (if 0 ≤ (i : ℤ) - ws + j ∧ (i : ℤ) - ws + j < (N : ℤ) then
          gaussWeight f ((j : ℤ) - ws) * e.getD ((i : ℤ) - ws + j).toNat 0 else 0))
  else
    (List.range N).map (fun i =>
      let f := fpb.getD (min i (fpb.length - 1)) 0
      let ws := jsRound (f : ℝ)
      ∑ j ∈ Finset.range (2 * ws.toNat + 1),
        (if 0 ≤ (i : ℤ) + ((j : ℤ) - ws) ∧ (i : ℤ) + ((j : ℤ) - ws) < (N : ℤ) then
          gaussWeight f ((j : ℤ) - ws) * e.getD ((i : ℤ) + ((j : ℤ) - ws)).toNat 0 else 0))

/-- Model of `_localMax`: strict interior local maxima with the edge
handling of the source. -/
def localMaxFlags (x : List ℝ) : List Bool :=
  (List.range x.length).map (fun i =>
    if i = 0 then
      (if x.length = 1 ∨ (1 < x.length ∧ x.getD 1 0 < x.getD 0 0) then true else false)
    else if i = x.length - 1 then
      (if x.length = 1 ∨ x.getD (x.length - 2) 0 < x.getD (x.length - 1) 0 then true else false)
    else if x.getD (i-1) 0 < x.getD i 0 ∧ x.getD (i+1) 0 < x.getD i 0 then true else false)

/-- Model of `_lastBeat(cumScore)`: last local maximum whose score is at
least half the median local-maximum score. -/
def lastBeat (cum : List ℝ) : ℕ :=
  let lm := localMaxFlags cum
  let valid := (List.range cum.length).filterMap (fun i =>
    if lm.getD i false = true then some (cum.getD i 0) else none)
  if valid = [] then cum.length - 1
  else
    let sortedV := sortAsc valid
    let median := sortedV.getD (valid.length / 2) 0
    match findFirst (fun i => lm.getD i false = true ∧ (1/2) * median ≤ cum.getD i 0)
        (List.range cum.length).reverse with
    | some i => i
    | none => cum.length - 1

/-- Backlink-following loop of `_dpBacktrack`, with explicit fuel.  The
DP always produces backlinks that strictly decrease (or are `-1`), so
fuel `len + 1` never runs out on a value produced by `_beatTrackDP`. -/
def backtrackAcc (back : List ℤ) : ℕ → ℤ → List ℕ → List ℕ
  | 0, _, acc => acc
  | fuel + 1, n, acc =>
    if 0 ≤ n then backtrackAcc back fuel (back.getD n.toNat 0) (acc ++ [n.toNat]) else acc

/-- Model of `_dpBacktrack(backlinks, tail, beats)`: boolean beat flags
of length `len` marking every frame visited from `tail`. -/
def dpBacktrack (back : List ℤ) (tail len : ℕ) : List Bool :=
  let marked := backtrackAcc back (len + 1) (tail : ℤ) []
  (List.range len).map (fun i => if i ∈ marked then true else false)

/-- Model of `_trimBeats(localScore, beats)`: suppress the leading and
trailing beats whose local score is at most half the RMS local score of
all detected beats. -/
def trimBeats (ls : List ℝ) (beats : List Bool) : List Bool :=
  let idxs := (List.range beats.length).filter (fun i => beats.getD i false = true)
  if idxs = [] then beats
  else
    let scores := idxs.map (fun i => ls.getD i 0)
    let thr := (1/2) * Real.sqrt ((scores.map (fun s => s * s)).sum / (scores.length : ℝ))
    let firstStrong := findFirst (fun i => thr < ls.getD i 0) idxs
    let lastStrong := findFirst (fun i => thr < ls.getD i 0) idxs.reverse
    (List.range beats.length).map (fun i =>
      if beats.getD i false = true ∧
          (match firstStrong with | some f => f ≤ i | none => False) ∧
          (match lastStrong with | some l => i ≤ l | none => False) then true else false)

/-- Body of `_beatTracker` after its two validation guards. -/
def beatTrackerBody (onset : List ℝ) (bpm : List ℝ) (frameRate t : ℝ) (trim : Bool) :
    List Bool :=
  let fpb := bpm.map (fun b => jsRound ((frameRate * 60) / b))
  let ls := beatLocalScore (normalizeOnsets onset) fpb
  let dp := beatTrackDP ls fpb t
  let beats := dpBacktrack dp.1 (lastBeat dp.2) onset.length
  if trim then trimBeats ls beats else beats

/-- Model of `_beatTracker(onsetEnvelope, bpm, frameRate, tightness,
trim)`: the two `throw` statements become `Except.error`. -/
def beatTracker (onset : List ℝ) (bpm : List ℝ) (frameRate t : ℝ) (trim : Bool) :
    Except String (List Bool) :=
  if ∃ b ∈ bpm, b ≤ 0 then Except.error "BPM must be strictly positive"
  else if t ≤ 0 then Except.error "Tightness must be strictly positive"
  else Except.ok (beatTrackerBody onset bpm frameRate t trim)

/-- Model of `_findRhythmStart` (only the returned `startFrame` matters
to the pipeline; `startTime` is used for logging). -/
def findRhythmStart (e : List ℝ) : ℕ :=
  let thr := (1/10) * jsMax e
  match findFirst (fun i =>
      thr < (∑ j ∈ Finset.range 20, e.getD (i - j) 0) / 20 ∧
      5 < ((List.range 10).filter (fun k => thr * (1/2) < e.getD (i + k) 0)).length)
    ((List.range e.length).filter (fun i => 20 ≤ i ∧ i + 20 < e.length)) with
  | some i => i - 20
  | none => 0

/-- Output-unit selector of `beatTrack`. -/
inductive BeatUnits
  | frames
  | samples
  | time

/-- Beat output shapes produced by `beatTrack`: a sparse index/time list,
a dense boolean array, or the all-zero `Float32Array` returned by the
no-onsets path in dense mode. -/
inductive BeatsOut
  | sparse (beats : List ℝ)
  | dense (beats : List Bool)
  | denseArr (beats : List ℝ)

/-- Result record `{tempo, beats}` of `beatTrack` (the tempo may be the
scalar estimate or a caller-supplied per-frame array). -/
structure BeatTrackResult where
  tempo : ℝ ⊕ List ℝ
  beats : BeatsOut

/-- Quick-detect preprocessing of `beatTrack`: estimate a tempo on a
short preview from the detected rhythm start and keep only a 2-bar
(8-beat) slice of the envelope. -/
def quickDetectSlice (onset : List ℝ) (sr : ℝ) (hop : ℕ) (startBpm : ℝ) : List ℝ :=
  let startFrame := findRhythmStart onset
  let previewOnset := (onset.take (min onset.length (startFrame + 256))).drop startFrame
  let estimatedTempo := tempoEstimation previewOnset sr hop startBpm true
  let analysisFrames := ⌈((60 / estimatedTempo) * 8 * sr) / (hop : ℝ)⌉
  (onset.take (min onset.length (startFrame + analysisFrames.toNat))).drop startFrame

/-- Main path of `beatTrack` once an onset envelope is available. -/
def beatTrackWithOnset (onset : List ℝ) (sr : ℝ) (hop : ℕ) (startBpm t : ℝ) (trim : Bool)
    (bpm : Option (ℝ ⊕ List ℝ)) (units : BeatUnits) (sparse quickDetect : Bool) :
    Except String BeatTrackResult :=
  if ∀ v ∈ onset, v = 0 then
    if sparse then Except.ok ⟨Sum.inl 0, BeatsOut.sparse []⟩
    else Except.ok ⟨Sum.inl 0, BeatsOut.denseArr (List.replicate onset.length 0)⟩
  else
    let onset2 := if quickDetect ∧ bpm = none then quickDetectSlice onset sr hop startBpm
      else onset
    let tempo : ℝ ⊕ List ℝ :=
      match bpm with
      | some b => b
      | none => Sum.inl (tempoEstimation onset2 sr hop startBpm true)
    let tempoArray : List ℝ :=
      match tempo with
      | Sum.inl x => [x]
      | Sum.inr l => l
    (beatTracker onset2 tempoArray (sr / (hop : ℝ)) t trim).map (fun bb =>
      let beatsOut : BeatsOut :=
        if sparse then
          let idxs := (List.range bb.length).filter (fun i => bb.getD i false = true)
          match units with
          | BeatUnits.frames => BeatsOut.sparse (idxs.map (fun b => (b : ℝ)))
          | BeatUnits.samples =>
            BeatsOut.sparse (idxs.map (fun b => ((jsRound ((b : ℝ) * hop) : ℤ) : ℝ)))
          | BeatUnits.time => BeatsOut.sparse (idxs.map (fun b => ((b : ℝ) * hop) / sr))
        else BeatsOut.dense bb
      ⟨tempo, beatsOut⟩)

/-- Model of `beatTrack(options)` of `xa-beat-tracker.js`.  The sample
rate is taken as given (the source's `AudioContext` auto-detection is a
browser concern).  JavaScript's falsy test `!bpm` is modelled as
`bpm = none`. -/
def beatTrack (y onsetEnvelope : Option (List ℝ)) (sr : ℝ) (hop : ℕ) (startBpm t : ℝ)
    (trim : Bool) (bpm : Option (ℝ ⊕ List ℝ)) (units : BeatUnits)
    (sparse quickDetect : Bool) : Except String BeatTrackResult :=
  match onsetEnvelope, y with
  | none, none => Except.error "Either y or onsetEnvelope must be provided"
  | some o, _ => beatTrackWithOnset o sr hop startBpm t trim bpm units sparse quickDetect
  | none, some yv =>
    beatTrackWithOnset (onsetStrength yv hop) sr hop startBpm t trim bpm units sparse
      quickDetect

/-! ### Fourier tempogram, inverse STFT, normalisation, PLP -/

/-- Model of `fourierTempogram(onset, _sr, hopLength, winLength)` of
`xa-beat-tracker.js` (the `_sr` and `hopLength` arguments are unused by
the source body): short onset envelopes yield `[]`; otherwise
Hann-windowed frames with stride `winLength/4` are transformed. -/
def fourierTempogram (onset : List ℝ) (_sr : ℝ) (_hopLength : ℕ) (winLength : ℕ) :
    List (List (ℝ × ℝ)) :=
  if onset.length < winLength then []
  else
    let hopFrames := winLength / 4
    let frames : ℤ := ((onset.length : ℤ) - winLength).fdiv hopFrames + 1
    if frames ≤ 0 then []
    else
      (List.range frames.toNat).map (fun i =>
        fft ((List.range winLength).map (fun j =>
          if i * hopFrames + j < onset.length then
            onset.getD (i * hopFrames + j) 0 * hannVal winLength j
          else 0)))

/-- Model of `_fourierTempoFrequencies(sr, hopLength, winLength)`:
`winLength/2 + 1` BPM values `((i*sr)/winLength) * 60 / hopLength`. -/
def fourierTempoFrequencies (sr hop : ℝ) (winLength : ℕ) : List ℝ :=
  (List.range (winLength / 2 + 1)).map (fun i =>
    (((i : ℝ) * sr) / (winLength : ℝ)) * 60 / hop)

/-- Model of `_istft(stft, hopLength, nFft, length)`: overlap-add
synthesis; output index `idx` collects the contribution
`frame[idx-start] * window[(idx-start) % nFft]` of every frame whose
extent covers `idx`. -/
def istft (stft : List (List (ℝ × ℝ))) (hop nFft len : ℕ) : List ℝ :=
  (List.range len).map (fun idx =>
    ∑ i ∈ Finset.range stft.length,
      (let frame := ifft (stft.getD i [])
       if i * hop ≤ idx ∧ idx - i * hop < frame.length then
         frame.getD (idx - i * hop) 0 * hannVal nFft ((idx - i * hop) % nFft)
       else 0))

/-- Model of `_normalize(x)`: min-max normalisation with identity
passthrough on zero dynamic range. -/
def normalize (x : List ℝ) : List ℝ :=
  let mx := jsMax x
  let mn := jsMin x
  if mx - mn = 0 then x else x.map (fun v => (v - mn) / (mx - mn))

/-- Error raised by `plp` on an invalid tempo range; it carries both
offending values, modelling the message
`tempoMax=... must be larger than tempoMin=...`. -/
inductive PlpError
  | tempoRangeInvalid (tempoMax tempoMin : ℝ)

/-- Computation pipeline of `plp` after validation: tempogram,
constraint masking, log-magnitude, optional prior, per-frame peak
selection, per-frame normalisation, inverse STFT, clipping,
min-max normalisation. -/
def plpBody (onset : List ℝ) (sr : ℝ) (hop winLength : ℕ)
    (tempoMin tempoMax : Option ℝ) (prior : Option (ℝ → ℝ)) : List ℝ :=
  let ftgram := fourierTempogram onset sr hop winLength
  let freqs := fourierTempoFrequencies sr (hop : ℝ) winLength
  let ftgramB : List (List (ℝ × ℝ)) := ftgram.map (fun frame =>
    frame.mapIdx (fun j bin =>
      if (match tempoMin with | some tm => freqs.getD j 0 < tm | none => False) ∨
          (match tempoMax with | some tM => tM < freqs.getD j 0 | none => False)
      then ((0 : ℝ), (0 : ℝ)) else bin))
  let ftmag : List (List ℝ) := ftgramB.map (fun frame =>
    frame.map (fun bin => Real.log (1 + 10 ^ 6 * Real.sqrt (bin.1 * bin.1 + bin.2 * bin.2))))
  let ftmag2 : List (List ℝ) :=
    match prior with
    | some p => ftmag.map (fun row => row.mapIdx (fun j v => v + p (freqs.getD j 0)))
    | none => ftmag
  let ftgramC := (List.range ftgramB.length).map (fun i =>
    let row : List (ℝ × ℝ) := ftgramB.getD i []
    let magRow : List ℝ := ftmag2.getD i []
    row.mapIdx (fun j bin => if magRow.getD j 0 < jsMax magRow then ((0 : ℝ), (0 : ℝ)) else bin))
  let ftgramD := ftgramC.map (fun row =>
    let maxMag := jsMax (row.map (fun bin => Real.sqrt (bin.1 * bin.1 + bin.2 * bin.2)))
    let normFactor := Real.sqrt (1 / 10 ^ 10 + maxMag)
    row.map (fun bin => if 0 < normFactor then (bin.1 / normFactor, bin.2 / normFactor) else bin))
  let pulse := istft ftgramD 1 winLength onset.length
  normalize (pulse.map (fun v => max 0 v))

/-- Model of `plp(options)` with the onset envelope already available:
the tempo-range validation precedes all computation. -/
def plpWithOnset (onset : List ℝ) (sr : ℝ) (hop winLength : ℕ)
    (tempoMin tempoMax : Option ℝ) (prior : Option (ℝ → ℝ)) :
    Except PlpError (List ℝ) :=
  match tempoMin, tempoMax with
  | some tmin, some tmax =>
    if tmax ≤ tmin then Except.error (PlpError.tempoRangeInvalid tmax tmin)
    else Except.ok (plpBody onset sr hop winLength (some tmin) (some tmax) prior)
  | tmin, tmax => Except.ok (plpBody onset sr hop winLength tmin tmax prior)

/-! ### Analyzer-page tempogram functions (`computeFourierTempogram`,
`analyzeTempogram`, `computeTempoFrequencies` of the bundled page script;
its `computeSimpleFFT` is the identical direct transform, modelled by
`fft` above) -/

/-- Model of the page script's `computeTempoFrequencies(sr, hopLength,
winLength)` (numerically identical to `_fourierTempoFrequencies`). -/
def computeTempoFrequencies0 (sr hop : ℝ) (winLength : ℕ) : List ℝ :=
  (List.range (winLength / 2 + 1)).map (fun i =>
    (((i : ℝ) * sr) / ((winLength : ℝ) * hop)) * 60)

/-- Tempogram peak record of `analyzeTempogram`. -/
structure TempogramPeak where
  bpm : ℝ
  energy : ℝ
  bin : ℕ
  frameCount : ℕ
  prominence : ℝ

/-- Result of `analyzeTempogram`. -/
structure TempogramAnalysis where
  peakTempos : List TempogramPeak
  totalEnergy : ℝ
  peakEnergyRatio : ℝ
  peakEnergy : ℝ
  numPeaks : ℕ
  magnitudes : List (List ℝ)

/-- Model of the page script's `analyzeTempogram(tempogram, tempoFreqs)`.
Its first statement reads `tempogram[0].length`; on an empty tempogram
`tempogram[0]` is `undefined` and the read throws a `TypeError`, modelled
as `Except.error`. -/
def analyzeTempogram0 (tempogram : List (List (ℝ × ℝ))) (tempoFreqs : List ℝ) :
    Except String TempogramAnalysis :=
  match tempogram with
  | [] => Except.error "TypeError: cannot read length of undefined"
  | t0 :: _ =>
    let numFrames := tempogram.length
    let numFreqs := t0.length
    let magnitudes := tempogram.map (fun row =>
      (List.range numFreqs).map (fun j =>
        Real.sqrt ((row.getD j (0, 0)).1 * (row.getD j (0, 0)).1 +
          (row.getD j (0, 0)).2 * (row.getD j (0, 0)).2)))
    let totalEnergy := (magnitudes.map List.sum).sum
    let avg := (List.range numFreqs).map (fun j =>
      (magnitudes.map (fun row => row.getD j 0)).sum / (numFrames : ℝ))
    let maxAvg := jsMax avg
    let tempoPeaks := ((List.range numFreqs).filter (fun j => 1 ≤ j ∧ j + 1 < numFreqs)).filterMap
      (fun j =>
        if 60 ≤ tempoFreqs.getD j 0 ∧ tempoFreqs.getD j 0 ≤ 200 ∧
            avg.getD (j-1) 0 < avg.getD j 0 ∧ avg.getD (j+1) 0 < avg.getD j 0 ∧
            (1/100) * maxAvg < avg.getD j 0 then
          some ⟨tempoFreqs.getD j 0, avg.getD j 0, j,
            (magnitudes.filter (fun row => (1/2) * avg.getD j 0 < row.getD j 0)).length,
            avg.getD j 0 / maxAvg⟩
        else none)
    let sortedPeaks := sortWith (fun a b => b.energy ≤ a.energy) tempoPeaks
    let peakEnergy := (sortedPeaks.map (fun p => p.energy)).sum
    Except.ok ⟨sortedPeaks, totalEnergy,
      if 0 < totalEnergy then peakEnergy / totalEnergy else 0,
      peakEnergy, sortedPeaks.length, magnitudes⟩

/-- Result record of the page script's `computeFourierTempogram`. -/
structure TempogramResult0 where
  frames : ℤ
  tempogram : List (List (ℝ × ℝ))
  frequencies : List ℝ
  tempoRangeMin : ℝ
  tempoRangeMax : ℝ
  peakTempos : List TempogramPeak
  totalEnergy : ℝ
  peakEnergy : ℝ

/-- Model of the page script's `computeFourierTempogram(onsetEnvelope,
sr)` (hard-coded `hopLength = 512`, `winLength = 384`, frame stride
`hopFrames = 96`).  The frame count can be non-positive for short
envelopes — no frame is computed then — and the unconditional
`analyzeTempogram` call propagates the `TypeError` of the empty case. -/
def computeFourierTempogram0 (onset : List ℝ) (sr : ℝ) : Except String TempogramResult0 :=
  let winLength : ℕ := 384
  let hopFrames : ℕ := 96
  let frames : ℤ := ((onset.length : ℤ) - (winLength : ℤ)).fdiv (hopFrames : ℤ) + 1
  let tempogram := (List.range frames.toNat).map (fun i =>
    fft ((List.range winLength).map (fun j =>
      if i * hopFrames + j < onset.length then
        onset.getD (i * hopFrames + j) 0 * hannVal winLength j
      else 0)))
  let tempoFreqs := computeTempoFrequencies0 sr 512 winLength
  (analyzeTempogram0 tempogram tempoFreqs).map (fun a =>
    ⟨frames, tempogram, tempoFreqs, tempoFreqs.getD 1 0,
      tempoFreqs.getD (tempoFreqs.length - 1) 0, a.peakTempos, a.totalEnergy, a.peakEnergy⟩)

/-! ### Basic facts about `jsMax`, `jsMin` and `normalize` -/

theorem le_foldl_max (a c : ℝ) (t : List ℝ) (h : c ≤ a) : c ≤ t.foldl max a := by
  induction t generalizing a with
  | nil => exact h
  | cons b t ih => exact ih (max a b) (le_trans h (le_max_left a b))

theorem mem_le_foldl_max (a b : ℝ) (t : List ℝ) (h : b ∈ t) : b ≤ t.foldl max a := by
  induction t generalizing a with
  | nil => cases h
  | cons x t ih =>
    rw [List.foldl_cons]
    rcases List.mem_cons.mp h with rfl | h
    · exact le_foldl_max (max a b) b t (le_max_right a b)
    · exact ih (max a x) h

theorem foldl_max_le (a c : ℝ) (t : List ℝ) (ha : a ≤ c) (h : ∀ b ∈ t, b ≤ c) :
    t.foldl max a ≤ c := by
  induction t generalizing a with
  | nil => exact ha
  | cons x t ih =>
    exact ih (max a x) (max_le ha (h x (List.mem_cons_self x t)))
      (fun b hb => h b (List.mem_cons_of_mem x hb))

theorem foldl_max_mem (a : ℝ) (t : List ℝ) : t.foldl max a = a ∨ t.foldl max a ∈ t := by
  induction t generalizing a with
  | nil => exact Or.inl rfl
  | cons x t ih =>
    rcases ih (max a x) with h | h
    · rcases max_choice a x with hx | hx
      · exact Or.inl (by rw [List.foldl_cons, h, hx])
      · exact Or.inr (by rw [List.foldl_cons, h, hx]; exact List.mem_cons_self x t)
    · exact Or.inr (List.mem_cons_of_mem x h)

theorem le_jsMax (l : List ℝ) (b : ℝ) (h : b ∈ l) : b ≤ jsMax l := by
  match l, h with
  | a :: t, h =>
    rcases List.mem_cons.mp h with rfl | h
    · exact le_foldl_max _ _ _ le_rfl
    · exact mem_le_foldl_max _ _ _ h

theorem jsMax_le (l : List ℝ) (c : ℝ) (hne : l ≠ []) (h : ∀ b ∈ l, b ≤ c) :
    jsMax l ≤ c := by
  match l, hne with
  | a :: t, _ =>
    exact foldl_max_le _ _ _ (h a (List.mem_cons_self a t))
      (fun b hb => h b (List.mem_cons_of_mem a hb))

theorem jsMax_mem (l : List ℝ) (hne : l ≠ []) : jsMax l ∈ l := by
  match l, hne with
  | a :: t, _ =>
    rcases foldl_max_mem a t with h | h
    · rw [jsMax, h]; exact List.mem_cons_self a t
    · exact List.mem_cons_of_mem a h

theorem foldl_min_self_le (a : ℝ) (t : List ℝ) : t.foldl min a ≤ a := by
  induction t generalizing a with
  | nil => exact le_rfl
  | cons x t ih => exact le_trans (ih (min a x)) (min_le_left a x)

theorem foldl_min_le (a b : ℝ) (t : List ℝ) (h : b ∈ t) : t.foldl min a ≤ b := by
  induction t generalizing a with
  | nil => cases h
  | cons x t ih =>
    rw [List.foldl_cons]
    rcases List.mem_cons.mp h with rfl | h
    · exact le_trans (foldl_min_self_le (min a b) t) (min_le_right a b)
    · exact ih (min a x) h

theorem le_foldl_min (a c : ℝ) (t : List ℝ) (ha : c ≤ a) (h : ∀ b ∈ t, c ≤ b) :
    c ≤ t.foldl min a := by
  induction t generalizing a with
  | nil => exact ha
  | cons x t ih =>
    exact ih (min a x) (le_min ha (h x (List.mem_cons_self x t)))
      (fun b hb => h b (List.mem_cons_of_mem x hb))

theorem foldl_min_mem (a : ℝ) (t : List ℝ) : t.foldl min a = a ∨ t.foldl min a ∈ t := by
  induction t generalizing a with
  | nil => exact Or.inl rfl
  | cons x t ih =>
    rcases ih (min a x) with h | h
    · rcases min_choice a x with hx | hx
      · exact Or.inl (by rw [List.foldl_cons, h, hx])
      · exact Or.inr (by rw [List.foldl_cons, h, hx]; exact List.mem_cons_self x t)
    · exact Or.inr (List.mem_cons_of_mem x h)

theorem jsMin_le (l : List ℝ) (b : ℝ) (h : b ∈ l) : jsMin l ≤ b := by
  match l, h with
  | a :: t, h =>
    rcases List.mem_cons.mp h with rfl | h
    · exact foldl_min_self_le _ _
    · exact foldl_min_le _ _ _ h

theorem le_jsMin (l : List ℝ) (c : ℝ) (hne : l ≠ []) (h : ∀ b ∈ l, c ≤ b) :
    c ≤ jsMin l := by
  match l, hne with
  | a :: t, _ =>
    exact le_foldl_min _ _ _ (h a (List.mem_cons_self a t))
      (fun b hb => h b (List.mem_cons_of_mem a hb))

theorem jsMin_mem (l : List ℝ) (hne : l ≠ []) : jsMin l ∈ l := by
  match l, hne with
  | a :: t, _ =>
    rcases foldl_min_mem a t with h | h
    · rw [jsMin, h]; exact List.mem_cons_self a t
    · exact List.mem_cons_of_mem a h

theorem pairwise_le_getLast (l : List ℝ) (hne : l ≠ []) (hp : l.Pairwise (· ≤ ·)) :
    ∀ x ∈ l, x ≤ l.getLast hne := by
  induction l with
  | nil => cases hne rfl
  | cons a t ih =>
    intro x hx
    cases t with
    | nil =>
      rcases List.mem_cons.mp hx with rfl | hx
      · exact le_rfl
      · cases hx
    | cons b t' =>
      rw [List.getLast_cons (by simp)]
      rcases List.mem_cons.mp hx with rfl | hx
      · exact le_trans (List.rel_of_pairwise_cons hp (List.getLast_mem _))
          le_rfl
      · exact ih (by simp) (List.pairwise_cons.mp hp).2 x hx

theorem jsMax_sub_jsMin_eq_zero_of_const (l : List ℝ)
    (h : ∀ a ∈ l, ∀ b ∈ l, a = b) : jsMax l - jsMin l = 0 := by
  cases l with
  | nil => simp [jsMax, jsMin]
  | cons a t =>
    have hmax := jsMax_mem (a :: t) (by simp)
    have hmin := jsMin_mem (a :: t) (by simp)
    rw [h _ hmax _ hmin, sub_self]

/-- C9: the min-max normalisation `_normalize` returns every
already-normalised array (minimum 0, maximum 1) unchanged — hence is
idempotent there; it maps the first and last elements of every
monotonically increasing input (of at least two elements) to exactly 0
and 1; and it returns every constant (zero dynamic range) input
unchanged rather than dividing by zero. -/
theorem normalize_fixed_points (l : List ℝ) :
    (jsMin l = 0 → jsMax l = 1 → normalize l = l) ∧
    (l.Chain' (· < ·) → 2 ≤ l.length →
      (normalize l).headD 0 = 0 ∧ (normalize l).getLastD 0 = 1) ∧
    ((∀ a ∈ l, ∀ b ∈ l, a = b) → normalize l = l) := by
  refine ⟨?_, ?_, ?_⟩
  · intro hmin hmax
    rw [normalize, hmin, hmax]
    norm_num
  · intro hchain hlen
    match l, hlen with
    | a :: b :: t, _ =>
      have hpair : (a :: b :: t).Pairwise (· < ·) := List.chain'_iff_pairwise.mp hchain
      have hne : (a :: b :: t) ≠ [] := by simp
      set L := a :: b :: t with hL
      have hlast_mem : L.getLast hne ∈ L := List.getLast_mem hne
      have hle_last : ∀ x ∈ L, x ≤ L.getLast hne :=
        pairwise_le_getLast L hne (hpair.imp le_of_lt)
      have hhead_le : ∀ x ∈ L, a ≤ x := by
        intro x hx
        rcases List.mem_cons.mp hx with rfl | hx
        · exact le_rfl
        · exact le_of_lt (List.rel_of_pairwise_cons hpair hx)
      have hmin : jsMin L = a :=
        le_antisymm (jsMin_le L a (by simp [hL])) (le_jsMin L a hne hhead_le)
      have hmax : jsMax L = L.getLast hne :=
        le_antisymm (jsMax_le L _ hne hle_last) (le_jsMax L _ hlast_mem)
      have hb_mem : b ∈ L := by simp [hL]
      have hab : a < b := List.rel_of_pairwise_cons hpair (by simp)
      have hlt : a < L.getLast hne := lt_of_lt_of_le hab (hle_last b hb_mem)
      have hrange : jsMax L - jsMin L ≠ 0 := by
        rw [hmin, hmax]; exact sub_ne_zero_of_ne (ne_of_gt hlt)
      have hmap : normalize L = L.map (fun v => (v - jsMin L) / (jsMax L - jsMin L)) := by
        rw [normalize, if_neg hrange]
      constructor
      · rw [hmap, hL]
        simp only [List.map_cons, List.headD_cons]
        rw [← hL, hmin, sub_self, zero_div]
      · rw [hmap]
        have hgl : (L.map (fun v => (v - jsMin L) / (jsMax L - jsMin L))).getLastD 0 =
            (L.getLast hne - jsMin L) / (jsMax L - jsMin L) := by
          rw [List.getLastD_eq_getLast?, List.getLast?_map,
            List.getLast?_eq_getLast L hne]
          rfl
        rw [hgl, hmax, div_self]
        rwa [hmax] at hrange
  · intro h
    rw [normalize, if_pos (jsMax_sub_jsMin_eq_zero_of_const l h)]

/-- Witness for C9 at concrete inputs: `[0,1]` (already normalised),
`[0,2]` (monotonically increasing), `[5,5]` (constant). -/
theorem normalize_fixed_points_witness :
    normalize [0, 1] = [0, 1] ∧
    ((normalize [0, 2]).headD 0 = 0 ∧ (normalize [0, 2]).getLastD 0 = 1) ∧
    normalize [5, 5] = [5, 5] := by
  refine ⟨(normalize_fixed_points [0, 1]).1 ?_ ?_,
    (normalize_fixed_points [0, 2]).2.1 ?_ ?_,
    (normalize_fixed_points [5, 5]).2.2 ?_⟩
  · norm_num [jsMin]
  · norm_num [jsMax]
  · norm_num [List.chain'_cons, List.chain'_singleton]
  · norm_num
  · intro a ha b hb
    simp only [List.mem_cons, List.mem_singleton, List.not_mem_nil, or_false] at ha hb
    rcases ha with rfl | rfl <;> rcases hb with rfl | rfl <;> rfl

/-- C2: the DP beat tracker `_beatTracker` fails with the invalid-argument
error "BPM must be strictly positive" whenever the tempo input contains a
non-positive value; with all tempo values positive it fails with the
invalid-argument tightness error whenever `tightness ≤ 0`; and with
positive tempo values and positive tightness it raises no error.  Both
checks run before any beat computation (the `Except` short-circuits the
body). -/
theorem beatTracker_validation (onset : List ℝ) (bpm : List ℝ) (frameRate t : ℝ)
    (trim : Bool) :
    ((∃ b ∈ bpm, b ≤ 0) →
      beatTracker onset bpm frameRate t trim =
        Except.error "BPM must be strictly positive") ∧
    ((∀ b ∈ bpm, 0 < b) → t ≤ 0 →
      beatTracker onset bpm frameRate t trim =
        Except.error "Tightness must be strictly positive") ∧
    ((∀ b ∈ bpm, 0 < b) → 0 < t →
      ∃ beats, beatTracker onset bpm frameRate t trim = Except.ok beats) := by
  refine ⟨?_, ?_, ?_⟩
  · intro h
    rw [beatTracker, if_pos h]
  · intro hpos ht
    rw [beatTracker, if_neg, if_pos ht]
    rintro ⟨b, hb, hb0⟩
    exact absurd (hpos b hb) (not_lt.mpr hb0)
  · intro hpos ht
    refine ⟨beatTrackerBody onset bpm frameRate t trim, ?_⟩
    rw [beatTracker, if_neg, if_neg (not_le.mpr ht)]
    rintro ⟨b, hb, hb0⟩
    exact absurd (hpos b hb) (not_lt.mpr hb0)

/-- Witness for C2 at concrete inputs: a negative BPM, a negative
tightness, and a fully valid call. -/
theorem beatTracker_validation_witness :
    beatTracker [1, 0] [-120] 43 100 true = Except.error "BPM must be strictly positive" ∧
    beatTracker [1, 0] [120] 43 (-1) true =
      Except.error "Tightness must be strictly positive" ∧
    ∃ beats, beatTracker [1, 0] [120] 43 100 true = Except.ok beats := by
  have hpos : ∀ b ∈ [(120 : ℝ)], 0 < b := by
    intro b hb
    rw [List.mem_singleton.mp hb]
    norm_num
  exact ⟨(beatTracker_validation [1, 0] [-120] 43 100 true).1
      ⟨-120, List.mem_singleton.mpr rfl, by norm_num⟩,
    (beatTracker_validation [1, 0] [120] 43 (-1) true).2.1 hpos (by norm_num),
    (beatTracker_validation [1, 0] [120] 43 100 true).2.2 hpos (by norm_num)⟩

/-- C4: an all-zero (hence also an empty) onset envelope makes
`beatTrack` return tempo `0` with an empty beat list in sparse mode and
an all-zero dense array otherwise, for every combination of the other
options and without raising an error. -/
theorem beatTrack_zero_onset (onset : List ℝ) (y : Option (List ℝ)) (sr : ℝ) (hop : ℕ)
    (startBpm t : ℝ) (trim : Bool) (bpm : Option (ℝ ⊕ List ℝ)) (units : BeatUnits)
    (quickDetect : Bool) (h : ∀ v ∈ onset, v = 0) :
    beatTrack y (some onset) sr hop startBpm t trim bpm units true quickDetect =
      Except.ok ⟨Sum.inl 0, BeatsOut.sparse []⟩ ∧
    beatTrack y (some onset) sr hop startBpm t trim bpm units false quickDetect =
      Except.ok ⟨Sum.inl 0, BeatsOut.denseArr (List.replicate onset.length 0)⟩ := by
  cases y <;>
    constructor <;>
    simp only [beatTrack, beatTrackWithOnset, if_pos h, if_true, if_false] <;>
    rfl

/-- Witness for C4 at the concrete all-zero envelope `[0, 0, 0]`. -/
theorem beatTrack_zero_onset_witness :
    beatTrack none (some [0, 0, 0]) 22050 512 120 100 true none BeatUnits.time true false =
      Except.ok ⟨Sum.inl 0, BeatsOut.sparse []⟩ ∧
    beatTrack none (some [0, 0, 0]) 22050 512 120 100 true none BeatUnits.time false false =
      Except.ok ⟨Sum.inl 0, BeatsOut.denseArr (List.replicate 3 0)⟩ := by
  have h : ∀ v ∈ [(0 : ℝ), 0, 0], v = 0 := by
    intro v hv
    simpa using hv
  have := beatTrack_zero_onset [0, 0, 0] none 22050 512 120 100 true none BeatUnits.time
    false h
  exact ⟨this.1, by simpa using this.2⟩

/-- C7: the Fourier tempogram of `xa-beat-tracker.js` returns zero
frames (an empty tempogram) for every onset envelope shorter than
`winLength`, without error; the page script's `computeFourierTempogram`,
however, feeds that empty tempogram to `analyzeTempogram`, whose very
first statement indexes into the empty array and throws a `TypeError`
(shown here on a length-100 all-zero envelope). -/
theorem tempogram_short_envelope :
    (∀ (onset : List ℝ) (sr : ℝ) (hop winLength : ℕ), onset.length < winLength →
      fourierTempogram onset sr hop winLength = []) ∧
    computeFourierTempogram0 (List.replicate 100 0) 22050 =
      Except.error "TypeError: cannot read length of undefined" := by
  constructor
  · intro onset sr hop win h
    rw [fourierTempogram, if_pos h]
  · rfl

/-- Witness for C7 at a concrete short envelope (length 5 < 384). -/
theorem tempogram_short_envelope_witness :
    fourierTempogram (List.replicate 5 0) 22050 512 384 = [] :=
  tempogram_short_envelope.1 (List.replicate 5 0) 22050 512 384 (by simp)

/-- C6 counterexample: `_computeMagnitudeSpectrum` on the non-empty
2-sample frame `[1, 0]` returns 2 values, not `N/2 = 1` as the claim
states. -/
theorem computeMagnitudeSpectrum_half_length_counterexample :
    (computeMagnitudeSpectrum [(1 : ℝ), 0]).length ≠ [(1 : ℝ), 0].length / 2 := by
  simp [computeMagnitudeSpectrum, fft]

/-- C6 (amended): for every input frame of `N` floats the
magnitude-spectrum primitive succeeds and returns exactly `N` (not
`N/2`) non-negative values, value `k` being
`sqrt(real_k² + imag_k²)` of the direct discrete transform; the empty
input yields the empty sequence. -/
theorem computeMagnitudeSpectrum_spec (frame : List ℝ) :
    (computeMagnitudeSpectrum frame).length = frame.length ∧
    (∀ k, k < frame.length →
      (computeMagnitudeSpectrum frame).getD k 0 =
        Real.sqrt (fftRe frame k ^ 2 + fftIm frame k ^ 2)) ∧
    (∀ v ∈ computeMagnitudeSpectrum frame, 0 ≤ v) ∧
    (frame = [] → computeMagnitudeSpectrum frame = []) := by
  refine ⟨by simp [computeMagnitudeSpectrum, fft], ?_, ?_, ?_⟩
  · intro k hk
    have hlen : k < (computeMagnitudeSpectrum frame).length := by
      simpa [computeMagnitudeSpectrum, fft] using hk
    rw [List.getD_eq_getElem _ _ hlen]
    simp [computeMagnitudeSpectrum, fft, sq]
  · intro v hv
    rcases List.mem_map.mp hv with ⟨bin, _, rfl⟩
    exact Real.sqrt_nonneg _
  · intro h
    rw [h]
    rfl

/-- Witness for C6's amended theorem at the concrete frame `[1, 0]`. -/
theorem computeMagnitudeSpectrum_spec_witness :
    (computeMagnitudeSpectrum [(1 : ℝ), 0]).length = 2 ∧
    (computeMagnitudeSpectrum [(1 : ℝ), 0]).getD 0 0 =
      Real.sqrt (fftRe [(1 : ℝ), 0] 0 ^ 2 + fftIm [(1 : ℝ), 0] 0 ^ 2) := by
  refine ⟨?_, (computeMagnitudeSpectrum_spec [(1 : ℝ), 0]).2.1 0 (by norm_num)⟩
  have h := (computeMagnitudeSpectrum_spec [(1 : ℝ), 0]).1
  simpa using h

theorem autocorrAt_eq_zero (e : List ℝ) (lag : ℕ) (h : e.length ≤ lag) :
    autocorrAt e lag = 0 := by
  rw [autocorrAt]
  simp [Nat.sub_eq_zero_of_le h]

theorem findPeaksWithProminence_const (n : ℕ) (c p : ℝ) :
    findPeaksWithProminence (List.replicate n c) p = [] := by
  rw [findPeaksWithProminence]
  have hraw : ((List.range (List.replicate n c).length).filterMap (fun i =>
      if 1 ≤ i ∧ i + 1 < (List.replicate n c).length ∧
          (List.replicate n c).getD (i-1) 0 < (List.replicate n c).getD i 0 ∧
          (List.replicate n c).getD (i+1) 0 < (List.replicate n c).getD i 0 ∧
          p * jsMax (List.replicate n c) ≤
            (List.replicate n c).getD i 0 -
              min ((List.replicate n c).getD (i-1) 0) ((List.replicate n c).getD (i+1) 0)
      then some ⟨i, (List.replicate n c).getD i 0,
            (List.replicate n c).getD i 0 -
              min ((List.replicate n c).getD (i-1) 0) ((List.replicate n c).getD (i+1) 0)⟩
      else none)) = ([] : List Peak) := by
    rw [List.filterMap_eq_nil_iff]
    intro i hi
    rw [if_neg]
    rintro ⟨h1, h2, h3, -, -⟩
    have hi1 : i - 1 < n := by
      simp only [List.length_replicate] at h2
      omega
    have hi2 : i < n := by
      simp only [List.length_replicate] at h2
      omega
    rw [List.getD_eq_getElem _ _ (by simpa using hi1),
      List.getD_eq_getElem _ _ (by simpa using hi2)] at h3
    simp at h3
  rw [hraw]
  rfl

/-- C3 (behaviour at the failing input of the repository's own test
`tempoEstimation clamps to range`): the test calls
`tempoEstimation(onset, 22050, 512, 200, 80, 120)` expecting a result in
the supplied range `[80, 120]`, but `tempoEstimation` has no range
parameters (the `80` lands on `useEnhanced`, truthy, and the `120` is
dropped); on this envelope the autocorrelation window (lags 8..87)
exceeds the 8-frame envelope, every autocorrelation value is `0`, no
peak is found, and `startBpm = 200` is returned verbatim — outside
`[80, 120]`.  With `startBpm = 500` the same fallback path even escapes
the hard-coded `[30, 300]` clamp of the final path. -/
theorem tempoEstimation_range_clamp_failing :
    tempoEstimation [1, 0, 0, 0, 1, 0, 0, 0] 22050 512 200 true = 200 ∧
    ¬(tempoEstimation [1, 0, 0, 0, 1, 0, 0, 0] 22050 512 200 true ≤ 120) ∧
    tempoEstimation [1, 0, 0, 0, 1, 0, 0, 0] 22050 512 500 true = 500 ∧
    ¬(tempoEstimation [1, 0, 0, 0, 1, 0, 0, 0] 22050 512 500 true ≤ 300) := by
  have hmin : tempoMinLag 22050 512 = 8 := by
    rw [tempoMinLag]
    norm_num
  have hmax : tempoMaxLag 22050 512 = 87 := by
    rw [tempoMaxLag]
    rw [Int.ceil_eq_iff]
    norm_num
  have hauto : autocorrList [1, 0, 0, 0, 1, 0, 0, 0] 22050 512 = List.replicate 80 0 := by
    rw [autocorrList, hmin, hmax]
    rw [List.eq_replicate_iff]
    constructor
    · simp
    · intro b hb
      rcases List.mem_map.mp hb with ⟨lagIdx, hmem, rfl⟩
      refine autocorrAt_eq_zero _ _ ?_
      have ht : ((8 : ℤ) + (lagIdx : ℤ)).toNat = 8 + lagIdx := by omega
      rw [ht]
      simp
  have hpe : ∀ startBpm : ℝ,
      tempoEstimation [1, 0, 0, 0, 1, 0, 0, 0] 22050 512 startBpm true = startBpm := by
    intro startBpm
    rw [tempoEstimation, hauto, findPeaksWithProminence_const]
    rw [if_pos rfl]
  refine ⟨hpe 200, ?_, hpe 500, ?_⟩
  · rw [hpe 200]
    norm_num
  · rw [hpe 500]
    norm_num

/-! ### Structure of the DP forward pass (claim C1) -/

theorem fpbAt_singleton (f : ℤ) (i : ℕ) : fpbAt [f] i = f := by
  simp [fpbAt]

theorem dpAux_cum_length (ls : List ℝ) (fpb : List ℤ) (t : ℝ) :
    ∀ n, (dpAux ls fpb t n).1.length = n := by
  intro n
  induction n with
  | zero => rfl
  | succ m ih =>
    cases m with
    | zero => rfl
    | succ k =>
      show ((dpAux ls fpb t (k+1)).1 ++ [_]).length = k + 2
      rw [List.length_append, ih]
      rfl

theorem dpAux_cum_prefix (ls : List ℝ) (fpb : List ℤ) (t : ℝ) :
    ∀ n i, i < n → (dpAux ls fpb t n).1.getD i 0 = (dpAux ls fpb t (i+1)).1.getD i 0 := by
  intro n
  induction n with
  | zero => intro i h; cases h
  | succ m ih =>
    intro i h
    rcases Nat.lt_succ_iff_lt_or_eq.mp h with h | rfl
    · cases m with
      | zero => cases h
      | succ k =>
        show ((dpAux ls fpb t (k+1)).1 ++ [_]).getD i 0 = _
        rw [List.getD_append _ _ _ _ (by rw [dpAux_cum_length]; exact h)]
        exact ih i h
    · rfl

/-- Unfolding of the DP step `i ≥ 1`: the cumulative score at `i` is
`localScore[i]` plus the inner-loop best, or `localScore[i]` alone when
the loop found no valid predecessor. -/
theorem dpAux_cum_step (ls : List ℝ) (fpb : List ℤ) (t : ℝ) (k : ℕ) :
    (dpAux ls fpb t (k+2)).1.getD (k+1) 0 =
      (match dpBest (dpAux ls fpb t (k+1)).1 t (fpbAt fpb (k+1)) (k+1) with
      | some p => ls.getD (k+1) 0 + p.1
      | none => ls.getD (k+1) 0) := by
  show ((dpAux ls fpb t (k+1)).1 ++ [_]).getD (k+1) 0 = _
  rw [List.getD_append_right _ _ _ _ (by rw [dpAux_cum_length])]
  rw [dpAux_cum_length]
  simp

theorem dpTrans_congr (cum1 cum2 : List ℝ) (t : ℝ) (f : ℤ) (i loc : ℕ)
    (h : cum1.getD loc 0 = cum2.getD loc 0) :
    dpTrans cum1 t f i loc = dpTrans cum2 t f i loc := by
  rw [dpTrans, dpTrans, h]

theorem dpWindow_mem_lt (i : ℕ) (f : ℤ) (loc : ℕ) (h : loc ∈ dpWindow i f) : loc < i := by
  rw [dpWindow] at h
  simpa using (List.mem_filter.mp h).2

/-- C1 (amended): in the static-tempo DP forward pass,
`cumScore[0] = localScore[0]`, and for every `1 ≤ i < N` the cumulative
score is `localScore[i]` plus the maximum transition score over the
predecessor window — the window being
`[max(0, i - round(2.5*fpb)), max(0, i - round(0.5*fpb))]` restricted to
`loc < i`, i.e. with BOTH endpoints clipped at 0 (the claim clipped only
the lower endpoint) — or `localScore[i]` alone when that window is
empty. -/
theorem beatTrackDP_forward_recurrence (ls : List ℝ) (fpb : ℤ) (t : ℝ) (_ht : 0 < t) :
    ((beatTrackDP ls [fpb] t).2.getD 0 0 = ls.getD 0 0) ∧
    (∀ i, 1 ≤ i → i < ls.length →
      (dpWindow i fpb = [] → (beatTrackDP ls [fpb] t).2.getD i 0 = ls.getD i 0) ∧
      (dpWindow i fpb ≠ [] →
        ∃ loc ∈ dpWindow i fpb,
          (beatTrackDP ls [fpb] t).2.getD i 0 =
            ls.getD i 0 + dpTrans (beatTrackDP ls [fpb] t).2 t fpb i loc ∧
          ∀ loc' ∈ dpWindow i fpb,
            dpTrans (beatTrackDP ls [fpb] t).2 t fpb i loc' ≤
              dpTrans (beatTrackDP ls [fpb] t).2 t fpb i loc)) := by
  have hcum : (beatTrackDP ls [fpb] t).2 = (dpAux ls [fpb] t ls.length).1 := rfl
  constructor
  · rcases Nat.eq_zero_or_pos ls.length with hz | hp
    · rw [hcum, hz]
      have hnil : ls = [] := List.length_eq_zero.mp hz
      rw [hnil]
      rfl
    · rw [hcum, dpAux_cum_prefix ls [fpb] t ls.length 0 hp]
      rfl
  · intro i h1 hi
    obtain ⟨k, rfl⟩ : ∃ k, i = k + 1 := ⟨i - 1, by omega⟩
    have hstep : (beatTrackDP ls [fpb] t).2.getD (k+1) 0 =
        (match dpBest (dpAux ls [fpb] t (k+1)).1 t fpb (k+1) with
        | some p => ls.getD (k+1) 0 + p.1
        | none => ls.getD (k+1) 0) := by
      rw [hcum, dpAux_cum_prefix ls [fpb] t ls.length (k+1) hi]
      rw [show (k+1) + 1 = k+2 from rfl, dpAux_cum_step, fpbAt_singleton]
    have htrans : ∀ loc ∈ dpWindow (k+1) fpb,
        dpTrans (dpAux ls [fpb] t (k+1)).1 t fpb (k+1) loc =
          dpTrans (beatTrackDP ls [fpb] t).2 t fpb (k+1) loc := by
      intro loc hloc
      have hlt : loc < k + 1 := dpWindow_mem_lt _ _ _ hloc
      refine dpTrans_congr _ _ _ _ _ _ ?_
      rw [hcum, dpAux_cum_prefix ls [fpb] t (k+1) loc hlt,
        dpAux_cum_prefix ls [fpb] t ls.length loc (lt_trans hlt hi)]
    constructor
    · intro hw
      rw [hstep, dpBest, hw, bestFold_nil]
    · intro hw
      obtain ⟨m, ml, hfold, hmem, hval, hmax⟩ :=
        bestFold_spec (dpTrans (dpAux ls [fpb] t (k+1)).1 t fpb (k+1)) (dpWindow (k+1) fpb) hw
      refine ⟨ml, hmem, ?_, ?_⟩
      · rw [hstep, dpBest, hfold, hval, htrans ml hmem]
      · intro loc' hloc'
        rw [← htrans loc' hloc', ← htrans ml hmem, ← hval]
        exact hmax loc' hloc'

/-- Witness for C1's amended theorem at `localScore = [1, 2]`,
`fpb = 1`, `tightness = 1`, step `i = 1`. -/
theorem beatTrackDP_forward_recurrence_witness :
    (beatTrackDP [1, 2] [1] 1).2.getD 0 0 = [(1 : ℝ), 2].getD 0 0 ∧
    (dpWindow 1 1 ≠ [] →
      ∃ loc ∈ dpWindow 1 1,
        (beatTrackDP [1, 2] [1] 1).2.getD 1 0 =
          [(1 : ℝ), 2].getD 1 0 + dpTrans (beatTrackDP [1, 2] [1] 1).2 1 1 1 loc ∧
        ∀ loc' ∈ dpWindow 1 1,
          dpTrans (beatTrackDP [1, 2] [1] 1).2 1 1 1 loc' ≤
            dpTrans (beatTrackDP [1, 2] [1] 1).2 1 1 1 loc) := by
  have h := beatTrackDP_forward_recurrence [1, 2] 1 1 (by norm_num)
  exact ⟨h.1, ((h.2 1 le_rfl (by norm_num)).2)⟩

/-- Modelled from the claim's words (the refinement being compared):
the predecessor window as the claim literally states it, with only the
LOWER endpoint clipped at zero —
`loc ∈ [max(0, i - round(2.5*fpb)), i - round(0.5*fpb)]`, `loc < i`. -/
def specDpWindow (i : ℕ) (f : ℤ) : List ℕ :=
  (List.range i).filter (fun loc =>
    max 0 ((i : ℤ) - jsRound ((5/2 : ℝ) * (f : ℝ))) ≤ (loc : ℤ) ∧
    (loc : ℤ) ≤ (i : ℤ) - jsRound ((1/2 : ℝ) * (f : ℝ)))

/-- C1 counterexample: with `localScore = [0, 0]`, `fpb = 4`,
`tightness = 1` and `i = 1`, the claim's window
`[max(0, 1-10), 1-2] = [0, -1]` is empty, so the claim forces
`cumScore[1] = localScore[1] = 0`; the code, whose search end is
`max(0, 1-2) = 0`, still examines `loc = 0` and produces
`cumScore[1] = -(ln 4)² ≠ 0`. -/
theorem beatTrackDP_claim_window_counterexample :
    specDpWindow 1 4 = [] ∧
    (beatTrackDP [0, 0] [4] 1).2.getD 1 0 ≠ [(0 : ℝ), 0].getD 1 0 := by
  have h25 : jsRound ((5/2 : ℝ) * ((4 : ℤ) : ℝ)) = 10 := by
    rw [jsRound]
    norm_num
  have h05 : jsRound ((1/2 : ℝ) * ((4 : ℤ) : ℝ)) = 2 := by
    rw [jsRound]
    norm_num
  constructor
  · rw [specDpWindow]
    rw [show ((4 : ℤ) : ℝ) = ((4 : ℤ) : ℝ) from rfl] at h25 h05
    simp only [h25, h05]
    decide
  · have hw : dpWindow 1 4 = [0] := by
      rw [dpWindow, dpSearchStart, dpSearchEnd, h25, h05]
      decide
    have hcum : (beatTrackDP [0, 0] [4] 1).2 = (dpAux [(0:ℝ), 0] [4] 1 2).1 := rfl
    have hstep := dpAux_cum_step [(0:ℝ), 0] [4] 1 0
    rw [fpbAt_singleton] at hstep
    rw [hcum, hstep, dpBest, hw]
    have hg : dpTrans (dpAux [(0:ℝ), 0] [4] 1 1).1 1 4 1 0 = -(Real.log 4) ^ 2 := by
      rw [dpTrans]
      have h1 : ((dpAux [(0:ℝ), 0] [4] 1 1).1 : List ℝ).getD 0 0 = 0 := rfl
      rw [h1]
      have h2 : max (1:ℝ) ((1:ℕ) - (0:ℕ) : ℝ) = 1 := by norm_num
      have h3 : max (1:ℝ) (((4:ℤ) : ℝ)) = 4 := by norm_num
      rw [h2, h3, Real.log_one]
      ring
    rw [bestFold, List.foldl_cons, List.foldl_nil]
    simp only [hg]
    have hlog : 0 < Real.log 4 := Real.log_pos (by norm_num)
    have : (0:ℝ) + -(Real.log 4) ^ 2 < 0 := by nlinarith
    simpa using ne_of_lt this

/-! ### Structure of the onset-strength loop (claim C5) -/

theorem spectrumAt_length (y : List ℝ) (hop i : ℕ) :
    (spectrumAt y hop i).length = frameLength := by
  simp [spectrumAt, computeMagnitudeSpectrum, fft, frameAt]

theorem onsetAux_spec (y : List ℝ) (hop : ℕ) : ∀ n,
    (onsetAux y hop n).1.length = n ∧
    (onsetAux y hop n).2 = (if n = 0 then none else some (spectrumAt y hop (n-1))) ∧
    (∀ i, i < n → (onsetAux y hop n).1.getD i 0 =
      (if i = 0 then 0 else
        spectralFlux (spectrumAt y hop i) (spectrumAt y hop (i-1)))) := by
  intro n
  induction n with
  | zero => exact ⟨rfl, rfl, fun i hi => absurd hi (Nat.not_lt_zero i)⟩
  | succ m ih =>
    obtain ⟨ihlen, ihsnd, ihget⟩ := ih
    cases m with
    | zero =>
      refine ⟨rfl, rfl, ?_⟩
      intro i hi
      interval_cases i
      rfl
    | succ k =>
      have hstep : onsetAux y hop (k + 2) =
          ((onsetAux y hop (k+1)).1 ++
            [spectralFlux (spectrumAt y hop (k+1)) (spectrumAt y hop k)],
           some (spectrumAt y hop (k+1))) := by
        rw [onsetAux, ihsnd]
        simp
      refine ⟨?_, ?_, ?_⟩
      · rw [hstep]
        simp only [List.length_append, ihlen]
        rfl
      · rw [hstep]
        simp
      · intro i hi
        rcases Nat.lt_succ_iff_lt_or_eq.mp hi with hi | rfl
        · rw [hstep]
          show ((onsetAux y hop (k+1)).1 ++ _).getD i 0 = _
          rw [List.getD_append _ _ _ _ (by rw [ihlen]; exact hi)]
          exact ihget i hi
        · rw [hstep]
          show ((onsetAux y hop (k+1)).1 ++ _).getD (k+1) 0 = _
          rw [List.getD_append_right _ _ _ _ (by rw [ihlen])]
          rw [ihlen]
          simp

/-- C5: for every sample buffer of length `N ≥ frameLength` (= 2048) and
positive hop, `onsetStrength` returns exactly
`(N - frameLength)/hopLength + 1` values; the value at frame 0 is 0;
the value at every frame `i ≥ 1` is the spectral flux
`Σ_k max(0, spectrum_i[k] - spectrum_{i-1}[k])` over all bins of the
Hann-windowed magnitude spectra; and consequently every envelope value
is non-negative. -/
theorem onsetStrength_spec (y : List ℝ) (hop : ℕ) (hlen : frameLength ≤ y.length)
    (_hhop : 0 < hop) :
    (onsetStrength y hop).length = (y.length - frameLength) / hop + 1 ∧
    (onsetStrength y hop).getD 0 0 = 0 ∧
    (∀ i, 1 ≤ i → i < (onsetStrength y hop).length →
      (onsetStrength y hop).getD i 0 =
        ∑ k ∈ Finset.range frameLength,
          max 0 ((spectrumAt y hop i).getD k 0 - (spectrumAt y hop (i-1)).getD k 0)) ∧
    (∀ v ∈ onsetStrength y hop, 0 ≤ v) := by
  have hcount : onsetFrameCount y.length hop = (y.length - frameLength) / hop + 1 := by
    rw [onsetFrameCount]
    rw [show ((y.length : ℤ) - (frameLength : ℤ)) = ((y.length - frameLength : ℕ) : ℤ) by
      rw [Int.ofNat_sub hlen]]
    rw [Int.fdiv_eq_ediv _ (Int.natCast_nonneg hop)]
    have h2 : ((y.length - frameLength : ℕ) : ℤ) / ((hop : ℕ) : ℤ) =
        (((y.length - frameLength) / hop : ℕ) : ℤ) := rfl
    rw [h2]
    generalize (y.length - frameLength) / hop = d
    omega
  obtain ⟨hl, -, hg⟩ := onsetAux_spec y hop (onsetFrameCount y.length hop)
  have hflux : ∀ i, spectralFlux (spectrumAt y hop i) (spectrumAt y hop (i-1)) =
      ∑ k ∈ Finset.range frameLength,
        max 0 ((spectrumAt y hop i).getD k 0 - (spectrumAt y hop (i-1)).getD k 0) := by
    intro i
    rw [spectralFlux, spectrumAt_length]
  refine ⟨?_, ?_, ?_, ?_⟩
  · show (onsetAux y hop (onsetFrameCount y.length hop)).1.length = _
    rw [hl, hcount]
  · show (onsetAux y hop (onsetFrameCount y.length hop)).1.getD 0 0 = 0
    have hpos : 0 < onsetFrameCount y.length hop := by
      rw [hcount]
      exact Nat.succ_pos _
    rw [hg 0 hpos]
    rfl
  · intro i h1 hi
    show (onsetAux y hop (onsetFrameCount y.length hop)).1.getD i 0 = _
    rw [hg i (by rwa [show (onsetStrength y hop).length =
      (onsetAux y hop (onsetFrameCount y.length hop)).1.length from rfl, hl] at hi)]
    rw [if_neg (by omega), hflux]
  · intro v hv
    obtain ⟨i, hi, hvi⟩ := List.mem_iff_getElem.mp hv
    have hgd : v = (onsetStrength y hop).getD i 0 := by
      rw [List.getD_eq_getElem _ _ hi, hvi]
    rw [hgd]
    show 0 ≤ (onsetAux y hop (onsetFrameCount y.length hop)).1.getD i 0
    rw [hg i (by rwa [show (onsetStrength y hop).length =
      (onsetAux y hop (onsetFrameCount y.length hop)).1.length from rfl, hl] at hi)]
    split
    · exact le_rfl
    · rw [hflux]
      exact Finset.sum_nonneg (fun k _ => le_max_left 0 _)

/-- Witness for C5 at a concrete buffer of exactly 2048 zero samples
with hop 512: the envelope has `(2048-2048)/512 + 1 = 1` frame and its
only value is 0. -/
theorem onsetStrength_spec_witness :
    (onsetStrength (List.replicate 2048 0) 512).length = 1 ∧
    (onsetStrength (List.replicate 2048 0) 512).getD 0 0 = 0 := by
  have h := onsetStrength_spec (List.replicate 2048 0) 512
    (by rw [List.length_replicate]; exact Nat.le_refl 2048) (by norm_num)
  refine ⟨?_, h.2.1⟩
  rw [h.1, List.length_replicate]
  rfl

/-! ### PLP contract (claim C8) -/

theorem hannVal_zero (n : ℕ) : hannVal n 0 = 0 := by
  rw [hannVal]
  norm_num

theorem istft_length (stft : List (List (ℝ × ℝ))) (hop nFft len : ℕ) :
    (istft stft hop nFft len).length = len := by
  simp [istft]

theorem istft_head_zero (stft : List (List (ℝ × ℝ))) (nFft len : ℕ) (hlen : 0 < len) :
    (istft stft 1 nFft len).getD 0 0 = 0 := by
  have hl : 0 < (istft stft 1 nFft len).length := by rwa [istft_length]
  rw [List.getD_eq_getElem _ _ hl]
  simp only [istft, List.getElem_map, List.getElem_range]
  refine Finset.sum_eq_zero ?_
  intro i _
  split
  · next h =>
    obtain ⟨h1, -⟩ := h
    have hi0 : i = 0 := by omega
    subst hi0
    simp [hannVal_zero]
  · rfl

theorem normalize_length (x : List ℝ) : (normalize x).length = x.length := by
  rw [normalize]
  split
  · rfl
  · rw [List.length_map]

theorem normalize_mem_unit (l : List ℝ) (hmem : (0 : ℝ) ∈ l) (hnn : ∀ v ∈ l, 0 ≤ v) :
    ∀ v ∈ normalize l, 0 ≤ v ∧ v ≤ 1 := by
  have hne : l ≠ [] := List.ne_nil_of_mem hmem
  have hmn : jsMin l = 0 :=
    le_antisymm (jsMin_le l 0 hmem) (le_jsMin l 0 hne hnn)
  intro v hv
  rw [normalize] at hv
  by_cases h : jsMax l - jsMin l = 0
  · rw [if_pos h] at hv
    have hmx : jsMax l = 0 := by rw [hmn] at h; linarith
    have hle : v ≤ 0 := hmx ▸ le_jsMax l v hv
    exact ⟨hnn v hv, le_trans hle zero_le_one⟩
  · rw [if_neg h] at hv
    obtain ⟨w, hw, rfl⟩ := List.mem_map.mp hv
    have hmx : 0 < jsMax l := by
      rcases lt_or_eq_of_le (le_trans (hnn 0 hmem) (le_jsMax l 0 hmem)) with hlt | heq
      · exact hlt
      · exact absurd (by rw [hmn, ← heq, sub_zero]) h
    rw [hmn, sub_zero, sub_zero]
    constructor
    · exact div_nonneg (hnn w hw) (le_of_lt hmx)
    · exact (div_le_one hmx).mpr (le_jsMax l w hw)

theorem plpBody_length (onset : List ℝ) (sr : ℝ) (hop winLength : ℕ)
    (tempoMin tempoMax : Option ℝ) (prior : Option (ℝ → ℝ)) :
    (plpBody onset sr hop winLength tempoMin tempoMax prior).length = onset.length := by
  rw [plpBody.eq_def, normalize_length, List.length_map, istft_length]

theorem plpBody_mem_unit (onset : List ℝ) (sr : ℝ) (hop winLength : ℕ)
    (tempoMin tempoMax : Option ℝ) (prior : Option (ℝ → ℝ)) :
    ∀ v ∈ plpBody onset sr hop winLength tempoMin tempoMax prior, 0 ≤ v ∧ v ≤ 1 := by
  rcases Nat.eq_zero_or_pos onset.length with hz | hp
  · intro v hv
    have : (plpBody onset sr hop winLength tempoMin tempoMax prior).length = 0 := by
      rw [plpBody_length, hz]
    rw [List.length_eq_zero.mp this] at hv
    cases hv
  · rw [plpBody.eq_def]
    refine normalize_mem_unit _ ?_ ?_
    · set pulse := istft _ 1 winLength onset.length with hpulse
      have hl : 0 < (pulse.map (fun v => max 0 v)).length := by
        rw [List.length_map, hpulse, istft_length]
        exact hp
      have hpl : 0 < pulse.length := by
        rw [hpulse, istft_length]
        exact hp
      have hv0 : (pulse.map (fun v => max 0 v)).getD 0 0 = 0 := by
        rw [List.getD_eq_getElem _ _ hl, List.getElem_map,
          ← List.getD_eq_getElem pulse 0 hpl, hpulse, istft_head_zero _ _ _ hp]
        exact max_self 0
      have hmem0 := List.getElem_mem hl
      rwa [← List.getD_eq_getElem _ _ hl, hv0] at hmem0
    · intro v hv
      obtain ⟨w, _, rfl⟩ := List.mem_map.mp hv
      exact le_max_left 0 w

/-- C8: `plp` (modelled with the onset envelope available) raises the
invalid-argument error naming both values exactly when `tempoMin` and
`tempoMax` are both given with `tempoMax ≤ tempoMin`; for every valid
range it returns a pulse curve of the same length as the input envelope
whose values all lie in `[0, 1]` after clipping and min-max
normalisation. -/
theorem plp_contract (onset : List ℝ) (sr : ℝ) (hop winLength : ℕ)
    (tempoMin tempoMax : Option ℝ) (prior : Option (ℝ → ℝ)) :
    (∀ tmin tmax, tempoMin = some tmin → tempoMax = some tmax → tmax ≤ tmin →
      plpWithOnset onset sr hop winLength tempoMin tempoMax prior =
        Except.error (PlpError.tempoRangeInvalid tmax tmin)) ∧
    (¬(∃ tmin tmax, tempoMin = some tmin ∧ tempoMax = some tmax ∧ tmax ≤ tmin) →
      ∃ curve, plpWithOnset onset sr hop winLength tempoMin tempoMax prior =
          Except.ok curve ∧
        curve.length = onset.length ∧ ∀ v ∈ curve, 0 ≤ v ∧ v ≤ 1) := by
  constructor
  · intro tmin tmax h1 h2 hle
    subst h1
    subst h2
    rw [plpWithOnset, if_pos hle]
  · intro hok
    cases tempoMin with
    | some tmin =>
      cases tempoMax with
      | some tmax =>
        have hlt : ¬(tmax ≤ tmin) := fun hle => hok ⟨tmin, tmax, rfl, rfl, hle⟩
        exact ⟨_, by rw [plpWithOnset, if_neg hlt], plpBody_length _ _ _ _ _ _ _,
          plpBody_mem_unit _ _ _ _ _ _ _⟩
      | none =>
        exact ⟨_, rfl, plpBody_length _ _ _ _ _ _ _, plpBody_mem_unit _ _ _ _ _ _ _⟩
    | none =>
      cases tempoMax with
      | some tmax =>
        exact ⟨_, rfl, plpBody_length _ _ _ _ _ _ _, plpBody_mem_unit _ _ _ _ _ _ _⟩
      | none =>
        exact ⟨_, rfl, plpBody_length _ _ _ _ _ _ _, plpBody_mem_unit _ _ _ _ _ _ _⟩

/-- Witness for C8: the invalid range `(120, 100)` errors naming both
values, and a valid call on the one-frame envelope `[0]` returns a
length-1 curve with values in `[0, 1]`. -/
theorem plp_contract_witness :
    plpWithOnset [1, 0, 0, 0] 22050 512 384 (some 120) (some 100) none =
      Except.error (PlpError.tempoRangeInvalid 100 120) ∧
    ∃ curve, plpWithOnset [0] 22050 512 384 (some 30) (some 300) none =
        Except.ok curve ∧
      curve.length = 1 ∧ ∀ v ∈ curve, 0 ≤ v ∧ v ≤ 1 := by
  constructor
  · exact (plp_contract [1, 0, 0, 0] 22050 512 384 (some 120) (some 100) none).1
      120 100 rfl rfl (by norm_num)
  · have hvalid : ¬(∃ tmin tmax, (some (30:ℝ) = some tmin) ∧ (some (300:ℝ) = some tmax) ∧
        tmax ≤ tmin) := by
      rintro ⟨tmin, tmax, htmin, htmax, hle⟩
      rw [Option.some_inj] at htmin htmax
      rw [← htmin, ← htmax] at hle
      norm_num at hle
    obtain ⟨curve, hc, hlen, hmem⟩ :=
      (plp_contract [0] 22050 512 384 (some 30) (some 300) none).2 hvalid
    exact ⟨curve, hc, by simpa using hlen, hmem⟩

/-! ### Enhanced tempo-estimation early return (claim C10) -/

/-- C10: whenever `tempoEstimation`'s default enhanced path is reached
(the autocorrelation peak search found at least one peak), at least 4
onset peaks were found, and the median inter-peak interval converts to a
BPM whose distance from 99 is less than 5, the function immediately
returns that interval BPM rounded to the nearest integer — bypassing the
autocorrelation candidate ranking, the log-normal prior, the
tempo-relationship resolution, and the final `[30, 300]` clamp. -/
theorem tempoEstimation_enhanced_early_return (e : List ℝ) (sr hop startBpm : ℝ)
    (hpeaks : findPeaksWithProminence (autocorrList e sr hop) (1/20) ≠ [])
    (honset : 4 ≤ (findOnsetPeaks e (3/10)).length)
    (hclose : |onsetIntervalBpm e sr hop - 99| < 5) :
    tempoEstimation e sr hop startBpm true =
      ((jsRound (onsetIntervalBpm e sr hop) : ℤ) : ℝ) := by
  rw [tempoEstimation.eq_def]
  rw [if_neg hpeaks, if_pos ⟨rfl, honset, hclose⟩]

theorem insertSorted_length (r : α → α → Prop) [∀ a b, Decidable (r a b)] (x : α) :
    ∀ l : List α, (insertSorted r x l).length = l.length + 1 := by
  intro l
  induction l with
  | nil => rfl
  | cons y t ih =>
    rw [insertSorted]
    split
    · rfl
    · rw [List.length_cons, ih]
      rfl

theorem sortWith_length (r : α → α → Prop) [∀ a b, Decidable (r a b)] (l : List α) :
    (sortWith r l).length = l.length := by
  induction l with
  | nil => rfl
  | cons y t ih =>
    show (insertSorted r y (sortWith r t)).length = t.length + 1
    rw [insertSorted_length, ih]

/-- Concrete onset envelope used to exercise the enhanced early return:
36 frames with unit impulses at frames 1, 12, 23, 34 (period 11). -/
def cEnvC10 : List ℝ :=
  (List.range 36).map (fun i => if i % 11 = 1 then (1 : ℝ) else 0)

theorem cEnvC10_getD (i : ℕ) (h : i < 36) :
    cEnvC10.getD i 0 = if i % 11 = 1 then 1 else 0 := by
  have hl : i < cEnvC10.length := by simpa [cEnvC10] using h
  rw [List.getD_eq_getElem _ _ hl]
  simp only [cEnvC10, List.getElem_map, List.getElem_range]

theorem cEnvC10_getD01 (i : ℕ) : cEnvC10.getD i 0 = 0 ∨ cEnvC10.getD i 0 = 1 := by
  by_cases h : i < 36
  · rw [cEnvC10_getD i h]
    split
    · exact Or.inr rfl
    · exact Or.inl rfl
  · rw [List.getD_eq_default _ _ (by simpa [cEnvC10] using not_lt.mp h)]
    exact Or.inl rfl

theorem autocorrAt_le_one (e : List ℝ) (lag : ℕ)
    (h01 : ∀ i, e.getD i 0 = 0 ∨ e.getD i 0 = 1) : autocorrAt e lag ≤ 1 := by
  rw [autocorrAt]
  have hterm : ∀ i ∈ Finset.range (e.length - lag),
      e.getD i 0 * e.getD (i + lag) 0 ≤ e.getD i 0 * e.getD i 0 := by
    intro i _
    rcases h01 i with h | h
    · rw [h]
      norm_num
    · rw [h]
      rcases h01 (i + lag) with h2 | h2
      · rw [h2]; norm_num
      · rw [h2]
  split
  · next hpos =>
    rw [div_le_one hpos]
    exact Finset.sum_le_sum hterm
  · exact zero_le_one

theorem cEnvC10_length : cEnvC10.length = 36 := by
  simp [cEnvC10]

theorem cEnvC10_getElemD (i : ℕ) :
    cEnvC10[i]?.getD 0 = if i % 11 = 1 ∧ i < 36 then (1 : ℝ) else 0 := by
  by_cases h : i < 36
  · have hl : i < cEnvC10.length := by rwa [cEnvC10_length]
    rw [List.getElem?_eq_getElem hl]
    simp only [cEnvC10, List.getElem_map, List.getElem_range, Option.getD_some]
    by_cases hm : i % 11 = 1
    · rw [if_pos hm, if_pos ⟨hm, h⟩]
    · rw [if_neg hm, if_neg (by tauto)]
  · rw [List.getElem?_eq_none (by rw [cEnvC10_length]; exact not_lt.mp h)]
    rw [if_neg (by tauto)]
    rfl

theorem cEnvC10_jsMax : jsMax cEnvC10 = 1 := by
  have h1 : (1 : ℝ) ∈ cEnvC10 := by
    have hl : 1 < cEnvC10.length := by rw [cEnvC10_length]; norm_num
    have hv : cEnvC10.getD 1 0 = 1 := by
      rw [List.getD_eq_getElem _ _ hl]
      simp [cEnvC10]
    have hmem := List.getElem_mem hl
    rwa [← List.getD_eq_getElem _ _ hl, hv] at hmem
  have hle : ∀ b ∈ cEnvC10, b ≤ 1 := by
    intro b hb
    rcases List.mem_map.mp hb with ⟨i, -, rfl⟩
    split
    · exact le_rfl
    · exact zero_le_one
  exact le_antisymm (jsMax_le _ 1 (List.ne_nil_of_mem h1) hle) (le_jsMax _ 1 h1)

theorem cEnvC10_onsetPeaks : findOnsetPeaks cEnvC10 (3/10) = [1, 12, 23, 34] := by
  rw [findOnsetPeaks.eq_def, cEnvC10_length, cEnvC10_jsMax]
  rw [show List.range 36 = [0, 1, 2, 3, 4, 5, 6, 7, 8, 9, 10, 11, 12, 13, 14, 15, 16, 17,
    18, 19, 20, 21, 22, 23, 24, 25, 26, 27, 28, 29, 30, 31, 32, 33, 34, 35] from rfl]
  norm_num [List.foldl_cons, cEnvC10_getElemD, List.getLastD]

theorem cEnvC10_intervals : onsetIntervals [1, 12, 23, 34] = [11, 11, 11] := by
  rw [onsetIntervals]
  rw [show (List.range (min ([1, 12, 23, 34] : List ℕ).length 20)).filter (fun i => 1 ≤ i) =
    [1, 2, 3] from by decide]
  simp only [List.map_cons, List.map_nil]
  norm_num [List.getD]

theorem cEnvC10_intervalBpm : onsetIntervalBpm cEnvC10 18 1 = 1080 / 11 := by
  rw [onsetIntervalBpm, medianIntervalFrames.eq_def, cEnvC10_onsetPeaks, cEnvC10_intervals]
  rw [show sortAsc [11, 11, 11] = [11, 11, 11] from by
    rw [sortAsc, sortWith]
    simp [insertSorted]]
  norm_num [List.getD]

theorem tempoMinLag_c10 : tempoMinLag 18 1 = 3 := by
  rw [tempoMinLag]
  norm_num

theorem tempoMaxLag_c10 : tempoMaxLag 18 1 = 36 := by
  rw [tempoMaxLag]
  norm_num

theorem autocorrList_c10_length : (autocorrList cEnvC10 18 1).length = 34 := by
  rw [autocorrList, tempoMinLag_c10, tempoMaxLag_c10]
  simp only [List.length_map, List.length_range]
  decide

theorem autocorrList_c10_getD (k : ℕ) (h : k < 34) :
    (autocorrList cEnvC10 18 1).getD k 0 = autocorrAt cEnvC10 ((3 + (k : ℤ)).toNat) := by
  rw [List.getD_eq_getElem?_getD]
  rw [autocorrList, tempoMinLag_c10, tempoMaxLag_c10]
  rw [show ((36 : ℤ) - 3 + 1).toNat = 34 from rfl]
  rw [List.getElem?_map, List.getElem?_range h]
  rfl

theorem autocorrAt_c10_10 : autocorrAt cEnvC10 10 = 0 := by
  rw [autocorrAt, cEnvC10_length]
  norm_num [Finset.sum_range_succ, cEnvC10_getElemD]

theorem autocorrAt_c10_11 : autocorrAt cEnvC10 11 = 1 := by
  rw [autocorrAt, cEnvC10_length]
  norm_num [Finset.sum_range_succ, cEnvC10_getElemD]

theorem autocorrAt_c10_12 : autocorrAt cEnvC10 12 = 0 := by
  rw [autocorrAt, cEnvC10_length]
  norm_num [Finset.sum_range_succ, cEnvC10_getElemD]

theorem autocorr_c10_peaks_ne :
    findPeaksWithProminence (autocorrList cEnvC10 18 1) (1/20) ≠ [] := by
  intro hempty
  rw [findPeaksWithProminence.eq_def] at hempty
  have hraw := congrArg List.length hempty
  rw [sortWith_length] at hraw
  simp only [List.length_nil] at hraw
  have hnil := List.length_eq_zero.mp hraw
  have h8 := List.filterMap_eq_nil_iff.mp hnil 8
    (by rw [List.mem_range, autocorrList_c10_length]; norm_num)
  have hg7 : (autocorrList cEnvC10 18 1).getD 7 0 = 0 := by
    rw [autocorrList_c10_getD 7 (by norm_num)]
    rw [show ((3 + ((7:ℕ) : ℤ)).toNat) = 10 by rfl]
    exact autocorrAt_c10_10
  have hg8 : (autocorrList cEnvC10 18 1).getD 8 0 = 1 := by
    rw [autocorrList_c10_getD 8 (by norm_num)]
    rw [show ((3 + ((8:ℕ) : ℤ)).toNat) = 11 by rfl]
    exact autocorrAt_c10_11
  have hg9 : (autocorrList cEnvC10 18 1).getD 9 0 = 0 := by
    rw [autocorrList_c10_getD 9 (by norm_num)]
    rw [show ((3 + ((9:ℕ) : ℤ)).toNat) = 12 by rfl]
    exact autocorrAt_c10_12
  have hmax : jsMax (autocorrList cEnvC10 18 1) ≤ 1 := by
    refine jsMax_le _ 1 ?_ ?_
    · intro hn
      have := congrArg List.length hn
      rw [autocorrList_c10_length] at this
      simp at this
    · intro b hb
      rw [autocorrList] at hb
      rcases List.mem_map.mp hb with ⟨lagIdx, -, rfl⟩
      exact autocorrAt_le_one cEnvC10 _ cEnvC10_getD01
  rw [if_pos ?_] at h8
  · exact Option.noConfusion h8
  · refine ⟨by norm_num, ?_, ?_, ?_, ?_⟩
    · rw [autocorrList_c10_length]
      norm_num
    · rw [hg7, hg8]
      norm_num
    · rw [hg9, hg8]
      norm_num
    · rw [hg7, hg8, hg9]
      norm_num
      linarith

/-- Witness for C10: on the 36-frame impulse-train envelope `cEnvC10`
(period 11) with `sr = 18`, `hop = 1`, `startBpm = 120`, the
autocorrelation peak list is non-empty, 4 onset peaks are found, the
median interval of 11 frames converts to `1080/11 ≈ 98.2` BPM (within 5
of 99), and `tempoEstimation` returns `round(1080/11) = 98` — not the
start BPM and not a clamped value. -/
theorem tempoEstimation_enhanced_early_return_witness :
    tempoEstimation cEnvC10 18 1 120 true = 98 := by
  have honset : 4 ≤ (findOnsetPeaks cEnvC10 (3/10)).length := by
    rw [cEnvC10_onsetPeaks]
    norm_num
  have hclose : |onsetIntervalBpm cEnvC10 18 1 - 99| < 5 := by
    rw [cEnvC10_intervalBpm, abs_lt]
    norm_num
  have h := tempoEstimation_enhanced_early_return cEnvC10 18 1 120
    autocorr_c10_peaks_ne honset hclose
  rw [h, cEnvC10_intervalBpm]
  rw [show jsRound ((1080 : ℝ) / 11) = 98 by rw [jsRound]; norm_num]
  norm_num

end XaBeat
